import Mathlib

/-!
Verification of the workshop-factory core against its specification.

The embedding below translates, over `List Char` (called `Str`), the pure parts
of the repository:

* `src/src/extract-json.ts` — `extractJson`, `repairTruncatedJson`, `closeJson`,
  together with a model of `JSON.parse` success (a total JSON validator) and of
  the code-fence regular expression;
* `src/src/validation.ts` — `validateWorkshop` over the `Workshop` data model
  (check `message`/`remediation` strings are not modelled: no property below
  concerns them, only `rule`, `passed` and `severity`);
* the flat-index mapping and splice of the regeneration module
  (`mapSectionIndices`, the pure core of `regenerateWorkshop`);
* `src/src/client.ts` — `streamResponse`, as a deterministic model of the
  single-threaded cooperative scheduling it runs under.
-/

set_option maxHeartbeats 4000000
set_option maxRecDepth 10000

namespace WorkshopFactory

/-- Characters of a JavaScript string, the carrier for the extractor model. -/
abbrev Str := List Char

/-- The `\x7b` character (opening curly brace). -/
def lbrace : Char := '\x7b'

/-- The `\x7d` character (closing curly brace). -/
def rbrace : Char := '\x7d'

/-- Opening square bracket. -/
def lbrack : Char := '['

/-- Closing square bracket. -/
def rbrack : Char := ']'

/-- The backslash character. -/
def bslash : Char := '\\'

/-- The double-quote character. -/
def dquote : Char := '\"'

/-- The backtick character `\x60`. -/
def btick : Char := '\x60'

/-- ASCII whitespace as matched by the JavaScript `\s` class and `String.trim`
(restricted to the ASCII range, which covers every input considered here). -/
def isJsWs (c : Char) : Bool :=
  c = ' ' || c = '\t' || c = '\n' || c = '\r' || c = '\x0b' || c = '\x0c'

/-- Model of JavaScript `String.prototype.trim`. -/
def jsTrim (s : Str) : Str :=
  ((s.dropWhile isJsWs).reverse.dropWhile isJsWs).reverse

/-- Whitespace of the JSON grammar itself (`JSON.parse` insignificant characters). -/
def isJsonWs (c : Char) : Bool :=
  c = ' ' || c = '\t' || c = '\n' || c = '\r'

/-- Skip JSON grammar whitespace. -/
def skipJsonWs : Str → Str := List.dropWhile isJsonWs

/-- Decimal digit test. -/
def isDigit (c : Char) : Bool := '0' ≤ c && c ≤ '9'

/-- Hexadecimal digit test, for `\uXXXX` escapes. -/
def isHexDigit (c : Char) : Bool :=
  isDigit c || ('a' ≤ c && c ≤ 'f') || ('A' ≤ c && c ≤ 'F')

/-- Consume the remainder of a JSON string literal, the opening quote already
consumed; returns the input after the closing quote, or `none` on malformed
escapes, control characters or a missing terminator. The `fuel` argument makes
the recursion structural (each step consumes at least one character, so the
caller's `length + 1` budget never runs out on real input). -/
def parseStringRest : Nat → Str → Option Str
  | 0, _ => none
  | _ + 1, [] => none
  | fuel + 1, c :: rest =>
    if c = dquote then some rest
    else if c = bslash then
      match rest with
      | [] => none
      | e :: rest2 =>
        if e = dquote || e = bslash || e = '/' || e = 'b' || e = 'f' ||
            e = 'n' || e = 'r' || e = 't' then parseStringRest fuel rest2
        else if e = 'u' then
          match rest2 with
          | h1 :: h2 :: h3 :: h4 :: rest3 =>
            if isHexDigit h1 && isHexDigit h2 && isHexDigit h3 && isHexDigit h4 then
              parseStringRest fuel rest3
            else none
          | _ => none
        else none
    else if c.toNat < 32 then none
    else parseStringRest fuel rest

/-- Consume one or more decimal digits. -/
def parseDigits : Str → Option Str
  | c :: rest => if isDigit c then some (rest.dropWhile isDigit) else none
  | [] => none

/-- Consume the integer part of a JSON number: `0`, or a nonzero digit followed
by digits. -/
def parseIntPart : Str → Option Str
  | c :: rest =>
    if c = '0' then some rest
    else if isDigit c then some (rest.dropWhile isDigit)
    else none
  | [] => none

/-- Consume an optional fraction part (`.` followed by one or more digits). -/
def parseFracPart (s : Str) : Option Str :=
  match s with
  | c :: rest => if c = '.' then parseDigits rest else some s
  | [] => some s

/-- Consume an optional exponent part (`e`/`E`, optional sign, digits). -/
def parseExpPart (s : Str) : Option Str :=
  match s with
  | c :: rest =>
    if c = 'e' || c = 'E' then
      match rest with
      | d :: rest2 => if d = '+' || d = '-' then parseDigits rest2 else parseDigits rest
      | [] => none
    else some s
  | [] => some s

/-- Consume a JSON number (optional minus sign, integer, fraction, exponent). -/
def parseNumberRest (s : Str) : Option Str :=
  let s1 := match s with
    | c :: rest => if c = '-' then rest else s
    | [] => s
  (parseIntPart s1).bind fun s2 => (parseFracPart s2).bind parseExpPart

/-- Consume a fixed literal tail (used for `true`, `false`, `null`). -/
def parseLit (lit : Str) (s : Str) : Option Str :=
  if lit.isPrefixOf s then some (s.drop lit.length) else none

mutual

/-- Consume one JSON value. The `fuel` argument makes the mutual recursion
structural; `parseJson` supplies `length + 1`, which a value of that length can
never exhaust (each unit of fuel spent corresponds to at least one consumed
character). -/
def parseValue : Nat → Str → Option Str
  | 0, _ => none
  | _ + 1, [] => none
  | fuel + 1, c :: rest =>
    if c = lbrace then
      match skipJsonWs rest with
      | d :: rest2 => if d = rbrace then some rest2 else parseMembers fuel (d :: rest2)
      | [] => none
    else if c = lbrack then
      match skipJsonWs rest with
      | d :: rest2 => if d = rbrack then some rest2 else parseElements fuel (d :: rest2)
      | [] => none
    else if c = dquote then parseStringRest fuel rest
    else if c = 't' then parseLit (['r', 'u', 'e']) rest
    else if c = 'f' then parseLit (['a', 'l', 's', 'e']) rest
    else if c = 'n' then parseLit (['u', 'l', 'l']) rest
    else if c = '-' || isDigit c then parseNumberRest (c :: rest)
    else none

/-- Consume the members of an object, positioned at the first member's opening
quote; consumes the closing brace. -/
def parseMembers : Nat → Str → Option Str
  | 0, _ => none
  | _ + 1, [] => none
  | fuel + 1, c :: rest =>
    if c = dquote then
      (parseStringRest fuel rest).bind fun s2 =>
        match skipJsonWs s2 with
        | d :: s3 =>
          if d = ':' then
            (parseValue fuel (skipJsonWs s3)).bind fun s4 =>
              match skipJsonWs s4 with
              | e :: s5 =>
                if e = ',' then parseMembers fuel (skipJsonWs s5)
                else if e = rbrace then some s5
                else none
              | [] => none
          else none
        | [] => none
    else none

/-- Consume the elements of an array, positioned at the first element; consumes
the closing bracket. -/
def parseElements : Nat → Str → Option Str
  | 0, _ => none
  | fuel + 1, s =>
    (parseValue fuel s).bind fun s2 =>
      match skipJsonWs s2 with
      | d :: s3 =>
        if d = ',' then parseElements fuel (skipJsonWs s3)
        else if d = rbrack then some s3
        else none
      | [] => none

end

/-- Success predicate of `JSON.parse`: the whole input, up to surrounding JSON
whitespace, is one JSON value. -/
def parseJson (s : Str) : Bool :=
  match parseValue (s.length + 1) (skipJsonWs s) with
  | some rest => skipJsonWs rest = []
  | none => false

/-! ### The code-fence regular expression

`extractJson` first runs `text.match` with the pattern
triple-backtick, optional `json`, `\s*`, optional newline, a lazy `[\s\S]*?`
capture, closing triple-backtick. The model below reproduces the engine's
behaviour: the match starts at the leftmost triple backtick that has another
triple backtick somewhere after its end; the optional parts are consumed
greedily (none of them can contain a backtick, so this never skips the closing
fence); the lazy capture stops at the first subsequent triple backtick. -/

/-- Three backticks, the fence delimiter. -/
def tripleTicks : Str := [btick, btick, btick]

/-- Does a triple backtick occur anywhere in the input? -/
def hasTriple : Str → Bool
  | [] => false
  | c :: rest => tripleTicks.isPrefixOf (c :: rest) || hasTriple rest

/-- Characters before the first triple backtick (the whole input if none). -/
def takeUntilTriple : Str → Str
  | [] => []
  | c :: rest => if tripleTicks.isPrefixOf (c :: rest) then [] else c :: takeUntilTriple rest

/-- The capture group, given the text after the opening triple backtick:
consume an optional literal `json`, then the greedy `\s*` (the optional `\n`
then matches empty), then capture lazily up to the closing fence. -/
def fenceCaptureAfter (after : Str) : Str :=
  let a2 := if (['j', 's', 'o', 'n'] : Str).isPrefixOf after then after.drop 4 else after
  takeUntilTriple (a2.dropWhile isJsWs)

/-- The regular expression's capture group on the whole text, `none` when the
pattern does not match. -/
def fenceCapture : Str → Option Str
  | [] => none
  | c :: rest =>
    if tripleTicks.isPrefixOf (c :: rest) && hasTriple ((c :: rest).drop 3) then
      some (fenceCaptureAfter ((c :: rest).drop 3))
    else fenceCapture rest

/-! ### The string-aware depth scanner of `extractJson` -/

/-- Index of the first opening brace (`text.indexOf` of line 25). -/
def firstBraceIdx : Str → Option Nat
  | [] => none
  | c :: rest => if c = lbrace then some 0 else (firstBraceIdx rest).map (· + 1)

/-- The loop of lines 30–49: scan with string/escape state, counting braces
only outside strings; returns the exclusive end index once depth returns to
zero, `none` if it never does. -/
def scanGo : Str → Int → Bool → Bool → Nat → Option Nat
  | [], _, _, _, _ => none
  | c :: rest, depth, inString, escape, i =>
    if escape then scanGo rest depth inString false (i + 1)
    else if c = bslash && inString then scanGo rest depth inString true (i + 1)
    else if c = dquote then scanGo rest depth (!inString) false (i + 1)
    else if !inString then
      let d := if c = lbrace then depth + 1 else if c = rbrace then depth - 1 else depth
      if d = 0 then some (i + 1) else scanGo rest d inString false (i + 1)
    else scanGo rest depth inString false (i + 1)

/-- The balanced region starting at the input's head (the caller passes the
text from its first opening brace), or `none` when the scan never balances. -/
def scanBalanced (s : Str) : Option Str :=
  (scanGo s 0 false false 0).map fun n => s.take n

/-! ### `closeJson` (lines 91–138) -/

/-- Line 93: strip trailing comma/colon/whitespace noise (`/[,:\s]+$/`). -/
def stripTrailNoise (s : Str) : Str :=
  (s.reverse.dropWhile (fun c => c = ',' || c = ':' || isJsWs c)).reverse

/-- Lines 96–103: the quote scan; the result is the final `inStr` state, true
when an odd number of unescaped quotes leaves a string literal open. -/
def quoteScanGo : Str → Bool → Bool → Bool
  | [], inStr, _ => inStr
  | c :: rest, inStr, esc =>
    if esc then quoteScanGo rest inStr false
    else if c = bslash && inStr then quoteScanGo rest inStr true
    else if c = dquote then quoteScanGo rest (!inStr) false
    else quoteScanGo rest inStr false

/-- Line 111: remove a trailing comma possibly followed by whitespace
(`/,\s*$/`). -/
def stripTrailComma (s : Str) : Str :=
  let r := s.reverse.dropWhile isJsWs
  match r with
  | c :: rest => if c = ',' then rest.reverse else s
  | [] => s

/-- Lines 114–130: collect the closing characters of unmatched braces and
brackets, outside of string literals. The source pushes closers onto an array
and finally appends `stack.reverse()`; here the stack is a cons list with its
most recent closer first, so the final append uses it as is. -/
def buildStack : Str → List Char → Bool → Bool → List Char
  | [], stack, _, _ => stack
  | c :: rest, stack, inStr, esc =>
    if esc then buildStack rest stack inStr false
    else if c = bslash && inStr then buildStack rest stack inStr true
    else if c = dquote then buildStack rest stack (!inStr) false
    else if inStr then buildStack rest stack inStr false
    else if c = lbrace then buildStack rest (rbrace :: stack) false false
    else if c = lbrack then buildStack rest (rbrack :: stack) false false
    else if c = rbrace || c = rbrack then
      match stack with
      | top :: stack2 =>
        if top = c then buildStack rest stack2 false false
        else buildStack rest stack false false
      | [] => buildStack rest stack false false
    else buildStack rest stack false false

/-- Close an incomplete JSON prefix: strip trailing noise, close an open
string literal (first removing a dangling trailing backslash), strip a
now-dangling comma, then append the closers of all unmatched braces/brackets.
Returns `none` when nothing was open and the text does not start with a brace
or bracket (line 132). -/
def closeJson (incomplete : Str) : Option Str :=
  let cleaned0 := stripTrailNoise incomplete
  let cleaned1 :=
    if quoteScanGo cleaned0 false false then
      (if cleaned0.getLast? = some bslash then cleaned0.dropLast else cleaned0) ++ [dquote]
    else cleaned0
  let cleaned := stripTrailComma cleaned1
  let stack := buildStack cleaned [] false false
  if stack = [] && !(cleaned.head? = some lbrace) && !(cleaned.head? = some lbrack) then none
  else some (cleaned ++ stack)

/-- The candidate tried at a given trim amount: close the prefix and keep it
only when it parses (the loop body of lines 72–83, with the `JSON.parse` in a
`try`/`catch`). -/
def repairCandidate (json : Str) (trimAmt : Nat) : Option Str :=
  match closeJson (json.take (json.length - trimAmt)) with
  | some closed => if parseJson closed then some closed else none
  | none => none

/-- Repair truncated JSON: try trim amounts `0, 1, …, min 200 length − 1` in
order and return the first candidate that parses (`repairTruncatedJson`,
lines 67–85; `findSome?` over the ascending range is the `for` loop with its
early `return`). -/
def repairTruncatedJson (json : Str) : Option Str :=
  (List.range (min 200 json.length)).findSome? (repairCandidate json)

/-! ### `extractJson` (lines 6–58) -/

/-- The fallback of lines 24–57: scan from the first opening brace; on an
unbalanced scan attempt repair; otherwise (or when everything fails) return
the trimmed text. -/
def scanOrRepair (text trimmed : Str) : Str :=
  match firstBraceIdx text with
  | some start =>
    match scanBalanced (text.drop start) with
    | some region => region
    | none =>
      match repairTruncatedJson (text.drop start) with
      | some repaired => repaired
      | none => trimmed
  | none => trimmed

/-- Extract JSON from raw generator output: fenced block interior first, then
the trimmed text itself when it starts with a brace/bracket and parses, then
the string-aware depth scan from the first opening brace, then truncation
repair, and finally the trimmed text unchanged. The fence guard mirrors the
source's truthiness test `codeBlockMatch?.[1]`: it requires a nonempty raw
capture. -/
def extractJson (text : Str) : Str :=
  let cap := (fenceCapture text).getD []
  if cap ≠ [] then jsTrim cap
  else
    let trimmed := jsTrim text
    if (trimmed.head? = some lbrace || trimmed.head? = some lbrack) && parseJson trimmed then
      trimmed
    else
      scanOrRepair text trimmed

/-! ### Exception-aware shadow of `extractJson`

The only operation in `extract-json.ts` that can throw is `JSON.parse`; the
model below keeps every such call in an exception monad and reproduces the
source's `try`/`catch` blocks as `Except` handlers, so that `extractJsonE`'s
success on every input is exactly the contract "never throws". -/

/-- The one exception `JSON.parse` can raise. -/
inductive JsErr
  | syntaxError
deriving DecidableEq

/-- `JSON.parse` in the exception monad (success value irrelevant here). -/
def jsonParseE (s : Str) : Except JsErr Unit :=
  if parseJson s then Except.ok () else Except.error JsErr.syntaxError

/-- The repair loop with its `try { JSON.parse(closed); return closed } catch`
body written with `jsonParseE`: a parse exception is caught and the loop
continues. -/
def repairCandidateE (json : Str) (trimAmt : Nat) : Option Str :=
  match closeJson (json.take (json.length - trimAmt)) with
  | some closed =>
    match jsonParseE closed with
    | Except.ok _ => some closed
    | Except.error _ => none
  | none => none

/-- Exception-aware `repairTruncatedJson`. -/
def repairTruncatedJsonE (json : Str) : Option Str :=
  (List.range (min 200 json.length)).findSome? (repairCandidateE json)

/-- The exception-aware fallback (no `JSON.parse` outside the repair loop's
`try`/`catch`, so this can only succeed). -/
def scanOrRepairE (text trimmed : Str) : Except JsErr Str :=
  match firstBraceIdx text with
  | some start =>
    match scanBalanced (text.drop start) with
    | some region => Except.ok region
    | none =>
      match repairTruncatedJsonE (text.drop start) with
      | some repaired => Except.ok repaired
      | none => Except.ok trimmed
  | none => Except.ok trimmed

/-- Exception-aware `extractJson`: the direct-parse attempt of lines 16–21 is
a `try`/`catch` whose handler falls through to the scanner; everything else
cannot throw. -/
def extractJsonE (text : Str) : Except JsErr Str :=
  let cap := (fenceCapture text).getD []
  if cap ≠ [] then Except.ok (jsTrim cap)
  else
    let trimmed := jsTrim text
    if trimmed.head? = some lbrace || trimmed.head? = some lbrack then
      match jsonParseE trimmed with
      | Except.ok _ => Except.ok trimmed
      | Except.error _ => scanOrRepairE text trimmed
    else scanOrRepairE text trimmed

/-! ## Lemmas about the extractor -/

/-- The exception-aware candidate computes the same option as the plain one:
the `catch` handler turns the sole possible exception into loop continuation. -/
theorem repairCandidateE_eq (json : Str) (t : Nat) :
    repairCandidateE json t = repairCandidate json t := by
  unfold repairCandidateE repairCandidate
  cases closeJson (json.take (json.length - t)) with
  | none => rfl
  | some closed => cases h : parseJson closed <;> simp [jsonParseE, h]

/-- Exception-aware repair agrees with plain repair. -/
theorem repairTruncatedJsonE_eq (json : Str) :
    repairTruncatedJsonE json = repairTruncatedJson json := by
  unfold repairTruncatedJsonE repairTruncatedJson
  rw [funext (repairCandidateE_eq json)]

/-- The exception-aware fallback agrees with the plain one. -/
theorem scanOrRepairE_eq (text trimmed : Str) :
    scanOrRepairE text trimmed = Except.ok (scanOrRepair text trimmed) := by
  cases hfb : firstBraceIdx text with
  | none => simp [scanOrRepairE, scanOrRepair, hfb]
  | some start =>
    cases hsb : scanBalanced (text.drop start) with
    | some region => simp [scanOrRepairE, scanOrRepair, hfb, hsb]
    | none =>
      cases hrp : repairTruncatedJson (text.drop start) with
      | none =>
        simp [scanOrRepairE, scanOrRepair, hfb, hsb, hrp, repairTruncatedJsonE_eq]
      | some rep =>
        simp [scanOrRepairE, scanOrRepair, hfb, hsb, hrp, repairTruncatedJsonE_eq]

/-- A successful repair candidate parses: the loop body returns a closed
prefix only after `JSON.parse` accepted it. -/
theorem repairCandidate_parses {json : Str} {t : Nat} {r : Str}
    (h : repairCandidate json t = some r) : parseJson r = true := by
  unfold repairCandidate at h
  cases hcl : closeJson (json.take (json.length - t)) with
  | none => rw [hcl] at h; cases h
  | some closed =>
    rw [hcl] at h
    have h2 : (if parseJson closed = true then some closed else none) = some r := h
    cases hp : parseJson closed with
    | false => rw [if_neg (by simp [hp])] at h2; cases h2
    | true => rw [if_pos hp] at h2; cases h2; exact hp

/-- First success wins for `findSome?` over an ascending range: if every
earlier point fails and `t` succeeds, `t`'s value is the result. -/
theorem findSome?_range'_first {f : Nat → Option Str} :
    ∀ (k s t : Nat) (r : Str), s ≤ t → t < s + k →
      (∀ u, s ≤ u → u < t → f u = none) → f t = some r →
      (List.range' s k).findSome? f = some r
  | 0, _, t, _, h1, h2, _, _ => absurd h2 (by omega)
  | k + 1, s, t, r, h1, h2, hfail, hsucc => by
    rw [show List.range' s (k + 1) = s :: List.range' (s + 1) k from rfl,
      List.findSome?_cons]
    rcases Nat.eq_or_lt_of_le h1 with heq | hlt
    · subst heq
      rw [hsucc]
    · rw [hfail s (le_refl s) hlt]
      exact findSome?_range'_first k (s + 1) t r hlt (by omega)
        (fun u hu1 hu2 => hfail u (by omega) hu2) hsucc

/-- A Boolean prefix extends along an appended tail. -/
theorem isPrefixOf_append_right {l s b : Str} (h : l.isPrefixOf s = true) :
    l.isPrefixOf (s ++ b) = true := by
  rw [List.isPrefixOf_iff_prefix] at h ⊢
  exact h.trans (List.prefix_append s b)

/-- `hasTriple` extends along an appended tail. -/
theorem hasTriple_append_right {a : Str} (b : Str) (h : hasTriple a = true) :
    hasTriple (a ++ b) = true := by
  induction a with
  | nil => simp [hasTriple] at h
  | cons c rest ih =>
    rw [hasTriple] at h
    rw [List.cons_append, hasTriple]
    rcases Bool.or_eq_true _ _ |>.mp h with h1 | h2
    · exact Bool.or_eq_true _ _ |>.mpr (Or.inl (isPrefixOf_append_right h1))
    · exact Bool.or_eq_true _ _ |>.mpr (Or.inr (ih h2))

/-- A fence match survives appending material on the right. -/
theorem fenceCapture_append_right_ne_none {a : Str} (b : Str)
    (h : fenceCapture a ≠ none) : fenceCapture (a ++ b) ≠ none := by
  induction a with
  | nil => simp [fenceCapture] at h
  | cons c rest ih =>
    rw [fenceCapture] at h
    rw [List.cons_append, fenceCapture]
    by_cases h2 : (tripleTicks.isPrefixOf (c :: (rest ++ b)) &&
        hasTriple ((c :: (rest ++ b)).drop 3)) = true
    · rw [if_pos h2]; simp
    · have horig : ¬ (tripleTicks.isPrefixOf (c :: rest) &&
          hasTriple ((c :: rest).drop 3)) = true := by
        intro hc
        apply h2
        rcases Bool.and_eq_true _ _ |>.mp hc with ⟨hp, htr⟩
        have hlen : 3 ≤ (c :: rest).length := by
          rw [List.isPrefixOf_iff_prefix] at hp
          simpa [tripleTicks] using hp.length_le
        have hdrop : (c :: (rest ++ b)).drop 3 = (c :: rest).drop 3 ++ b := by
          rw [← List.cons_append, List.drop_append_eq_append_drop]
          have h30 : 3 - (c :: rest).length = 0 := Nat.sub_eq_zero_of_le hlen
          rw [h30, List.drop_zero]
        rw [Bool.and_eq_true]
        refine ⟨?_, ?_⟩
        · have := isPrefixOf_append_right (b := b) hp
          rwa [List.cons_append] at this
        · rw [hdrop]
          exact hasTriple_append_right b htr
      rw [if_neg horig] at h
      rw [if_neg h2]
      exact ih h

/-- A fence match in a suffix gives a fence match in the whole text. -/
theorem fenceCapture_of_append_left_none {a b : Str}
    (h : fenceCapture (a ++ b) = none) : fenceCapture b = none := by
  induction a with
  | nil => simpa using h
  | cons c rest ih =>
    rw [List.cons_append, fenceCapture] at h
    by_cases hc : (tripleTicks.isPrefixOf (c :: (rest ++ b)) &&
        hasTriple ((c :: (rest ++ b)).drop 3)) = true
    · rw [if_pos hc] at h; cases h
    · rw [if_neg hc] at h; exact ih h

/-- The trimmed text sits inside the original text. -/
theorem jsTrim_decomp (s : Str) :
    s = s.takeWhile isJsWs ++ (jsTrim s ++ ((s.dropWhile isJsWs).reverse.takeWhile isJsWs).reverse) := by
  unfold jsTrim
  conv_lhs => rw [← List.takeWhile_append_dropWhile (p := isJsWs) (l := s)]
  congr 1
  conv_lhs => rw [← List.reverse_reverse (s.dropWhile isJsWs),
    ← List.takeWhile_append_dropWhile (p := isJsWs) (l := (s.dropWhile isJsWs).reverse)]
  rw [List.reverse_append]

/-- No fence match in the text means no fence match in its trimmed form. -/
theorem fenceCapture_jsTrim_none {s : Str} (h : fenceCapture s = none) :
    fenceCapture (jsTrim s) = none := by
  have hdec := jsTrim_decomp s
  rw [hdec] at h
  have h2 := fenceCapture_of_append_left_none h
  by_contra hne
  exact absurd h2 (fenceCapture_append_right_ne_none _ hne)

/-- A list whose head does not satisfy the predicate is fixed by `dropWhile`. -/
theorem dropWhile_eq_self_of_head {p : Char → Bool} {l : Str}
    (h : ∀ x, l.head? = some x → p x = false) : l.dropWhile p = l := by
  cases l with
  | nil => rfl
  | cons c rest =>
    have := h c rfl
    simp [List.dropWhile, this]

/-- The head of a `dropWhile` result does not satisfy the predicate. -/
theorem head?_dropWhile_false (p : Char → Bool) (l : Str) :
    ∀ x, (l.dropWhile p).head? = some x → p x = false := by
  intro x hx
  have := List.head?_dropWhile_not p l
  rw [hx] at this
  exact this

/-- A nonempty suffix shares its last element with the whole list. -/
theorem getLast?_of_suffix {l w : Str} (h : l <:+ w) (hne : l ≠ []) :
    l.getLast? = w.getLast? := by
  rcases h with ⟨pre, rfl⟩
  rw [List.getLast?_append]
  cases hl : l.getLast? with
  | none =>
    cases l with
    | nil => exact absurd rfl hne
    | cons a as => rw [List.getLast?_cons] at hl; cases hl
  | some y => rfl

/-- Trimming is idempotent. -/
theorem jsTrim_idem (s : Str) : jsTrim (jsTrim s) = jsTrim s := by
  have step2 : (jsTrim s).reverse.dropWhile isJsWs = (jsTrim s).reverse := by
    have h1 : (jsTrim s).reverse = (s.dropWhile isJsWs).reverse.dropWhile isJsWs := by
      unfold jsTrim
      rw [List.reverse_reverse]
    rw [h1]
    exact dropWhile_eq_self_of_head (head?_dropWhile_false isJsWs _)
  have step1 : (jsTrim s).dropWhile isJsWs = jsTrim s := by
    apply dropWhile_eq_self_of_head
    intro x hx
    have hx2 : (((s.dropWhile isJsWs).reverse.dropWhile isJsWs).reverse).head? = some x := hx
    rw [List.head?_reverse] at hx2
    by_cases hne : (s.dropWhile isJsWs).reverse.dropWhile isJsWs = []
    · rw [hne] at hx2; cases hx2
    · have hlast := getLast?_of_suffix (List.dropWhile_suffix isJsWs) hne
      rw [hlast, List.getLast?_reverse] at hx2
      exact head?_dropWhile_false isJsWs s x hx2
  have houter : jsTrim (jsTrim s) =
      (((jsTrim s).dropWhile isJsWs).reverse.dropWhile isJsWs).reverse := rfl
  rw [houter, step1, step2, List.reverse_reverse]

/-! ## Claims C5, C6, C7, C10 -/

/-- C5: extraction totality. For every input string, `extractJson` returns a
string and never throws: the exception-aware model of `extract-json.ts`, in
which every `JSON.parse` site lives in an exception monad and each of the
source's `try`/`catch` blocks is an `Except` handler, succeeds on every input
and returns exactly `extractJson`'s result. -/
theorem c5_extraction_totality (text : Str) :
    extractJsonE text = Except.ok (extractJson text) := by
  unfold extractJsonE extractJson
  by_cases hcap : ((fenceCapture text).getD []) ≠ []
  · rw [if_pos hcap, if_pos hcap]
  · rw [if_neg hcap, if_neg hcap]
    by_cases h1 : (jsTrim text).head? = some lbrace <;>
      by_cases h2 : (jsTrim text).head? = some lbrack <;>
        cases hp : parseJson (jsTrim text) <;>
          simp [h1, h2, hp, jsonParseE, scanOrRepairE_eq]

/-- The input showing extraction is not idempotent on bare valid input: a JSON
string literal whose value contains an opening brace and an unparseable tail,
padded with 190 trailing spaces so that the 200-candidate repair window of the
first pass (which scans the untrimmed text) never reaches a parseable prefix,
while the second pass (on the trimmed result) does. -/
def literalWithBrace : Str := "\"\x7b\\\"a\\\": 1e\"".data ++ List.replicate 190 ' '

/-- C6 is false as stated: `literalWithBrace` trims to valid JSON (a string
literal) and contains no code fence, yet extracting twice differs from
extracting once — the first extraction returns the trimmed input unchanged,
the second repairs its brace region to an empty object. -/
theorem c6_counterexample :
    parseJson (jsTrim literalWithBrace) = true ∧
    fenceCapture literalWithBrace = none ∧
    extractJson (extractJson literalWithBrace) ≠ extractJson literalWithBrace := by
  refine ⟨by decide, by decide, ?_⟩
  have h1 : extractJson literalWithBrace = "\"\x7b\\\"a\\\": 1e\"".data := by decide
  rw [h1]
  decide

/-- C6 (amended): extraction is idempotent on already-bare valid input that
begins with an opening brace or bracket — for every `x` with no fence match
whose trimmed form starts with a brace or bracket and parses as JSON,
`extractJson (extractJson x) = extractJson x` (both equal the trimmed input). -/
theorem c6_extraction_idempotent (x : Str)
    (hfence : fenceCapture x = none)
    (hhead : (jsTrim x).head? = some lbrace ∨ (jsTrim x).head? = some lbrack)
    (hparse : parseJson (jsTrim x) = true) :
    extractJson (extractJson x) = extractJson x := by
  have hfirst : extractJson x = jsTrim x := by
    unfold extractJson
    rw [hfence]
    simp only [Option.getD_none, ne_eq, not_true_eq_false, if_false]
    rcases hhead with h | h <;> simp [h, hparse]
  rw [hfirst]
  have hfence2 : fenceCapture (jsTrim x) = none := fenceCapture_jsTrim_none hfence
  unfold extractJson
  rw [hfence2]
  simp only [Option.getD_none, ne_eq, not_true_eq_false, if_false]
  rw [jsTrim_idem]
  rcases hhead with h | h <;> simp [h, hparse]

/-- Witness for C6 (amended) at the two-character input consisting of an
opening and a closing brace. -/
theorem c6_witness :
    fenceCapture ("\x7b\x7d".data) = none ∧
    parseJson (jsTrim ("\x7b\x7d".data)) = true ∧
    extractJson (extractJson ("\x7b\x7d".data)) = extractJson ("\x7b\x7d".data) :=
  ⟨by decide, by decide,
    c6_extraction_idempotent _ (by decide) (Or.inl (by decide)) (by decide)⟩

/-- C7 (amended): the repair loop tries trim amounts `0, 1, …, 199` (200
candidate prefixes, never a trim of 200 characters), one character at a time,
and returns the first — longest — candidate that closes and parses; when every
candidate in that window fails, it returns `none`. -/
theorem c7_repair_window :
    (∀ json t r, t < min 200 json.length →
        (∀ u, u < t → repairCandidate json u = none) →
        repairCandidate json t = some r →
        repairTruncatedJson json = some r)
    ∧ (∀ json, (∀ t, t < min 200 json.length → repairCandidate json t = none) →
        repairTruncatedJson json = none) := by
  constructor
  · intro json t r ht hfail hsucc
    rw [repairTruncatedJson, List.range_eq_range']
    exact findSome?_range'_first (min 200 json.length) 0 t r (Nat.zero_le t)
      (by omega) (fun u _ hu => hfail u hu) hsucc
  · intro json hfail
    rw [repairTruncatedJson, List.findSome?_eq_none_iff]
    intro t ht
    exact hfail t (List.mem_range.mp ht)

/-- Witness for C7 (amended): on the truncated object text consisting of an
open brace, a quoted key, a colon and the two characters `1e`, the trim-0
candidate fails to parse and the trim-1 candidate succeeds, so repair returns
the closed trim-1 prefix. -/
theorem c7_witness :
    repairTruncatedJson ("\x7b\"a\": 1e".data) = some ("\x7b\"a\": 1\x7d".data) :=
  c7_repair_window.1 _ 1 _ (by decide)
    (fun u hu => by
      have hu0 : u = 0 := Nat.lt_one_iff.mp hu
      rw [hu0]
      decide)
    (by decide)

/-- An opening brace followed by 200 backslashes: every candidate in the
trim window 0..199 retains at least one backslash directly after the brace and
cannot parse, while trimming exactly 200 characters would leave the bare brace,
which closes to a parseable empty object. -/
def braceBackslashes : Str := lbrace :: List.replicate 200 bslash

/-- C7 is false as stated: an input that becomes repairable exactly when 200
characters are trimmed is rejected, because the loop bound `trim < 200` stops
at a trim of 199 characters. -/
theorem c7_counterexample :
    repairTruncatedJson braceBackslashes = none ∧
    closeJson (braceBackslashes.take (braceBackslashes.length - 200)) =
      some [lbrace, rbrace] ∧
    parseJson [lbrace, rbrace] = true :=
  ⟨by decide, by decide, by decide⟩

/-- C10: the implicit repair postcondition — every non-`none` result of
`repairTruncatedJson` parses as JSON, because the loop returns a candidate only
after `JSON.parse` accepted it. -/
theorem c10_repair_postcondition (json r : Str)
    (h : repairTruncatedJson json = some r) : parseJson r = true := by
  rw [repairTruncatedJson] at h
  obtain ⟨t, _, hc⟩ := List.exists_of_findSome?_eq_some h
  exact repairCandidate_parses hc

/-- Witness for C10 at the specification's own example: the object text
truncated inside a string value repairs to the closed object, which parses. -/
theorem c10_witness :
    repairTruncatedJson ("\x7b\"a\": \"hel".data) = some ("\x7b\"a\": \"hel\"\x7d".data) ∧
    parseJson ("\x7b\"a\": \"hel\"\x7d".data) = true :=
  ⟨by decide,
    c10_repair_postcondition ("\x7b\"a\": \"hel".data) ("\x7b\"a\": \"hel\"\x7d".data) (by decide)⟩

/-! ## The Workshop data model

The `Workshop` shape consumed by `validation.ts` and the regeneration module
(`schema.ts` interface, reproduced verbatim in `src/unnamed/part_015`). -/

/-- Audience difficulty tiers. -/
inductive AudienceLevel
  | beginner
  | intermediate
  | advanced
deriving DecidableEq

/-- Cognitive levels of the Bloom taxonomy, in ascending order. -/
inductive BloomsLevel
  | remember
  | understand
  | apply
  | analyze
  | evaluate
  | create
deriving DecidableEq

/-- A tagged learning objective. -/
structure Objective where
  text : String
  blooms_level : BloomsLevel
deriving DecidableEq

/-- The closed tagged union of section shapes. -/
inductive Section
  | lecture (title : String) (duration : Nat) (talking_points : List String)
  | exercise (title : String) (duration : Nat) (instructions : String)
      (starter_code : String) (solution : String) (hints : List String)
  | discussion (title : String) (duration : Nat) (prompts : List String)
  | checkpoint (title : String) (duration : Nat) (questions : List String)
      (expected_answers : List String) (explanations : List String)
deriving DecidableEq

/-- Duration of a section, in minutes. -/
def Section.duration : Section → Nat
  | .lecture _ d _ => d
  | .exercise _ d _ _ _ _ => d
  | .discussion _ d _ => d
  | .checkpoint _ d _ _ _ => d

/-- A module: title, duration, tagged objectives and ordered sections. -/
structure Module where
  title : String
  duration : Nat
  learning_objectives : List Objective
  sections : List Section
deriving DecidableEq

/-- The audience descriptor. -/
structure Audience where
  level : AudienceLevel
  stack : Option String
  size : Option Nat
deriving DecidableEq

/-- The root document. -/
structure Workshop where
  title : String
  topic : String
  audience : Audience
  duration : Nat
  difficulty : AudienceLevel
  prerequisites : List String
  context_sources : List String
  modules : List Module
deriving DecidableEq

/-! ## The Validation Engine (`validation.ts`) -/

/-- Finding severity. -/
inductive Severity
  | error
  | suggestion
deriving DecidableEq

/-- A single validation check result. The `message` and `remediation` strings
of the source are not modelled; no claim concerns them. -/
structure ValidationCheck where
  rule : String
  passed : Bool
  severity : Severity
deriving DecidableEq

/-- Overall validation result. -/
structure ValidationResult where
  valid : Bool
  checks : List ValidationCheck
deriving DecidableEq

/-- Bloom taxonomy action verbs for each cognitive level (lines 92–99). -/
def BLOOMS_VERBS : BloomsLevel → List String
  | .remember => ["define", "list", "identify", "recall", "name", "recognize", "state", "label"]
  | .understand => ["explain", "describe", "summarize", "interpret", "classify", "compare",
      "discuss", "paraphrase"]
  | .apply => ["implement", "use", "execute", "demonstrate", "solve", "apply", "build",
      "operate", "navigate", "craft", "practice", "calculate", "modify", "construct",
      "produce", "select", "show"]
  | .analyze => ["differentiate", "examine", "compare", "contrast", "debug", "test",
      "investigate", "categorize", "diagnose", "classify", "infer", "identify", "outline",
      "attribute", "organize"]
  | .evaluate => ["assess", "critique", "justify", "defend", "judge", "recommend",
      "prioritize", "validate", "determine", "decide", "appraise", "rank", "measure",
      "evaluate"]
  | .create => ["design", "build", "construct", "develop", "compose", "formulate", "plan",
      "architect", "synthesize", "generate", "hypothesize", "engineer"]

/-- Expected Bloom levels by audience level (lines 104–108). -/
def LEVEL_BLOOMS_MAP : AudienceLevel → List BloomsLevel
  | .beginner => [.remember, .understand, .apply]
  | .intermediate => [.understand, .apply, .analyze]
  | .advanced => [.analyze, .evaluate, .create]

/-- Model of JavaScript `String.prototype.includes`: substring containment. -/
def jsIncludes : Str → Str → Bool
  | hay, needle =>
    needle.isPrefixOf hay ||
      match hay with
      | [] => false
      | _ :: t => jsIncludes t needle

/-- ASCII lower-casing, the fragment of `toLowerCase` exercised here. -/
def toLowerChar (c : Char) : Char :=
  if 'A' ≤ c && c ≤ 'Z' then Char.ofNat (c.toNat + 32) else c

/-- The leading whitespace-separated word of the text, lower-cased (line 342:
`objective.text.trim().split(/\s+/)[0]!.toLowerCase()`). -/
def firstWordLower (text : String) : Str :=
  ((jsTrim text.data).takeWhile (fun c => !isJsWs c)).map toLowerChar

/-- Rule 1, `duration_sum` (lines 117–131): per module, section durations sum
to the module duration within a tolerance of 2 minutes. -/
def durationSumChecks (w : Workshop) : List ValidationCheck :=
  w.modules.map fun m =>
    let sectionSum : Nat := m.sections.foldl (fun sum s => sum + s.duration) 0
    { rule := "duration_sum",
      passed := decide (((sectionSum : Int) - (m.duration : Int)).natAbs ≤ 2),
      severity := Severity.error }

/-- Rule 2, `total_duration` (lines 133–145): module durations sum to the
workshop duration within a tolerance of 5 minutes. -/
def totalDurationCheck (w : Workshop) : ValidationCheck :=
  let moduleSum : Nat := w.modules.foldl (fun sum m => sum + m.duration) 0
  { rule := "total_duration",
    passed := decide (((moduleSum : Int) - (w.duration : Int)).natAbs ≤ 5),
    severity := Severity.error }

/-- Is the section an exercise? -/
def isExercise : Section → Bool
  | .exercise _ _ _ _ _ _ => true
  | _ => false

/-- Is the section a checkpoint? -/
def isCheckpoint : Section → Bool
  | .checkpoint _ _ _ _ _ => true
  | _ => false

/-- Is the section a lecture? -/
def isLecture : Section → Bool
  | .lecture _ _ _ => true
  | _ => false

/-- The per-exercise failures of rule 3, `exercise_completeness`
(lines 150–170): an exercise with a blank (post-trim) starter or solution. -/
def exerciseFailureChecks (w : Workshop) : List ValidationCheck :=
  w.modules.flatMap fun m =>
    m.sections.filterMap fun s =>
      match s with
      | Section.exercise _ _ _ starter sol _ =>
        if (jsTrim starter.data).length > 0 && (jsTrim sol.data).length > 0 then none
        else some { rule := "exercise_completeness", passed := false, severity := Severity.error }
      | _ => none

/-- Number of exercise sections in the workshop. -/
def exerciseCount (w : Workshop) : Nat :=
  w.modules.foldl (fun n m => n + (m.sections.filter isExercise).length) 0

/-- Rule 3 in full (lines 147–186): the failures, then a passing summary when
exercises exist and all are complete, or a failing check when none exist. -/
def exerciseChecks (w : Workshop) : List ValidationCheck :=
  let failures := exerciseFailureChecks w
  failures ++
    (if exerciseCount w > 0 ∧ failures.length = 0 then
      [{ rule := "exercise_completeness", passed := true, severity := Severity.error }]
    else if exerciseCount w = 0 then
      [{ rule := "exercise_completeness", passed := false, severity := Severity.error }]
    else [])

/-- The inner loop of rule 4 (lines 190–199): the largest cumulative
non-checkpoint duration since the last checkpoint or the module start. -/
def spacingMaxGap : List Section → Nat → Nat → Nat
  | [], _, maxGap => maxGap
  | s :: rest, timeSince, maxGap =>
    if isCheckpoint s then spacingMaxGap rest 0 maxGap
    else spacingMaxGap rest (timeSince + s.duration) (max maxGap (timeSince + s.duration))

/-- Rule 4, `checkpoint_spacing` (lines 188–210): per module, the largest gap
without a checkpoint is at most 25 minutes. -/
def checkpointSpacingChecks (w : Workshop) : List ValidationCheck :=
  w.modules.map fun m =>
    { rule := "checkpoint_spacing",
      passed := decide (spacingMaxGap m.sections 0 0 ≤ 25),
      severity := Severity.suggestion }

/-- The comparison `(num / den) * 100 ≥ thresh` as the source's floating-point
evaluation computes it on natural inputs, with the IEEE zero-denominator cases
explicit: `0/0` is `NaN` (every comparison false) and `n/0` for positive `n`
is positive infinity. -/
def ratioGe (num den thresh : Nat) : Bool :=
  if den = 0 then decide (num ≠ 0) else decide (100 * num ≥ thresh * den)

/-- The comparison `(num / den) * 100 ≤ thresh`, zero-denominator cases as in
`ratioGe`. -/
def ratioLe (num den thresh : Nat) : Bool :=
  if den = 0 then false else decide (100 * num ≤ thresh * den)

/-- Is the section an exercise or a discussion (practice time)? -/
def isPracticeSection : Section → Bool
  | .exercise _ _ _ _ _ _ => true
  | .discussion _ _ _ => true
  | _ => false

/-- Total duration of exercise and discussion sections (lines 213–220). -/
def practiceTime (w : Workshop) : Nat :=
  w.modules.foldl
    (fun acc m => m.sections.foldl
      (fun a s => if isPracticeSection s then a + s.duration else a) acc) 0

/-- Rule 5, `practice_ratio` (lines 212–231): practice time at least 60% of
the workshop duration. -/
def practiceRatioCheck (w : Workshop) : ValidationCheck :=
  { rule := "practice_ratio", passed := ratioGe (practiceTime w) w.duration 60,
    severity := Severity.suggestion }

/-- Total duration of lecture sections (lines 234–241). -/
def lectureTime (w : Workshop) : Nat :=
  w.modules.foldl
    (fun acc m => m.sections.foldl
      (fun a s => if isLecture s then a + s.duration else a) acc) 0

/-- Rule 6, `lecture_ratio` (lines 233–252): lecture time at most 25% of the
workshop duration. -/
def lectureRatioCheck (w : Workshop) : ValidationCheck :=
  { rule := "lecture_ratio", passed := ratioLe (lectureTime w) w.duration 25,
    severity := Severity.suggestion }

/-- Total duration of checkpoint sections (lines 255–262). -/
def checkpointTime (w : Workshop) : Nat :=
  w.modules.foldl
    (fun acc m => m.sections.foldl
      (fun a s => if isCheckpoint s then a + s.duration else a) acc) 0

/-- Rule 7, `checkpoint_ratio` (lines 254–273): checkpoint time at least 15%
of the workshop duration. -/
def checkpointRatioCheck (w : Workshop) : ValidationCheck :=
  { rule := "checkpoint_ratio", passed := ratioGe (checkpointTime w) w.duration 15,
    severity := Severity.suggestion }

/-- The per-section failures of rule 8, `max_lecture_duration`
(lines 276–288): a lecture longer than 15 minutes. -/
def maxLectureFailures (w : Workshop) : List ValidationCheck :=
  w.modules.flatMap fun m =>
    m.sections.filterMap fun s =>
      match s with
      | Section.lecture _ d _ =>
        if d > 15 then
          some { rule := "max_lecture_duration", passed := false, severity := Severity.suggestion }
        else none
      | _ => none

/-- The per-section failures of rule 9, `min_section_duration`
(lines 299–311): a section shorter than 5 minutes. -/
def minDurationFailures (w : Workshop) : List ValidationCheck :=
  w.modules.flatMap fun m =>
    m.sections.filterMap fun s =>
      if s.duration < 5 then
        some { rule := "min_section_duration", passed := false, severity := Severity.error }
      else none

/-- The verb condition of line 343: some canonical verb of the declared tag is
a substring (`String.includes`) of the lower-cased leading word. -/
def verbCondition (o : Objective) : Bool :=
  (BLOOMS_VERBS o.blooms_level).any fun v => jsIncludes (firstWordLower o.text) v.data

/-- The two findings rule 10 can emit for one objective (lines 324–353): a
level-mismatch finding when the tag is outside the audience tier's expected
set, and a verb finding when `verbCondition` fails. -/
def objectiveBloomsChecks (expected : List BloomsLevel) (o : Objective) :
    List ValidationCheck :=
  (if expected.contains o.blooms_level then []
    else [{ rule := "blooms_alignment", passed := false, severity := Severity.suggestion }]) ++
  (if verbCondition o then []
    else [{ rule := "blooms_alignment", passed := false, severity := Severity.suggestion }])

/-- Rule 10, `blooms_alignment` in full (lines 321–363): all per-objective
findings, then a passing summary when there were none. -/
def bloomsChecks (w : Workshop) : List ValidationCheck :=
  let expected := LEVEL_BLOOMS_MAP w.audience.level
  let issues := w.modules.flatMap fun m =>
    m.learning_objectives.flatMap (objectiveBloomsChecks expected)
  issues ++
    (if issues.length = 0 then
      [{ rule := "blooms_alignment", passed := true, severity := Severity.suggestion }]
    else [])

/-- The check list accumulated through rules 1–8 of `validateWorkshop`,
in source order. -/
def checksThrough8 (w : Workshop) : List ValidationCheck :=
  durationSumChecks w ++ [totalDurationCheck w] ++ exerciseChecks w ++
    checkpointSpacingChecks w ++ [practiceRatioCheck w] ++ [lectureRatioCheck w] ++
    [checkpointRatioCheck w] ++ maxLectureFailures w

/-- Rule 8's passing summary (lines 289–296), appended only when the
accumulated list holds no `max_lecture_duration` check. -/
def checksThrough8b (w : Workshop) : List ValidationCheck :=
  if (checksThrough8 w).any (fun c => c.rule == "max_lecture_duration") then checksThrough8 w
  else checksThrough8 w ++ [{ rule := "max_lecture_duration", passed := true, severity := Severity.suggestion }]

/-- The list through rule 9's failures. -/
def checksThrough9 (w : Workshop) : List ValidationCheck :=
  checksThrough8b w ++ minDurationFailures w

/-- Rule 9's passing summary (lines 312–319), under the same accumulated-list
condition. -/
def checksThrough9b (w : Workshop) : List ValidationCheck :=
  if (checksThrough9 w).any (fun c => c.rule == "min_section_duration") then checksThrough9 w
  else checksThrough9 w ++ [{ rule := "min_section_duration", passed := true, severity := Severity.error }]

/-- The list through rule 10. -/
def checksThrough10 (w : Workshop) : List ValidationCheck :=
  checksThrough9b w ++ bloomsChecks w

/-- The full check list: rule 11 (lines 365–373) records a passing
`context_sources` check only when sources are listed. -/
def validateChecks (w : Workshop) : List ValidationCheck :=
  if w.context_sources.length > 0 then
    checksThrough10 w ++ [{ rule := "context_sources", passed := true, severity := Severity.error }]
  else checksThrough10 w

/-- Validate workshop structure and pedagogical rules (`validateWorkshop`,
lines 114–382). Overall validity is the conjunction of every check's `passed`
flag (line 376). -/
def validateWorkshop (w : Workshop) : ValidationResult :=
  { valid := (validateChecks w).all (fun c => c.passed), checks := validateChecks w }

/-! ## Claim C1 -/

/-- The end-to-end example of §8 of the specification: one module of 60
minutes with a 10-minute lecture, a 20-minute exercise, a 10-minute checkpoint
and a 20-minute discussion. Every error-severity check passes; the 30-minute
gap before the checkpoint fails `checkpoint_spacing`, a suggestion. -/
def gappyWorkshop : Workshop :=
  { title := "W", topic := "t",
    audience := { level := AudienceLevel.beginner, stack := none, size := none },
    duration := 60, difficulty := AudienceLevel.beginner,
    prerequisites := [], context_sources := [],
    modules := [
      { title := "M1", duration := 60,
        learning_objectives := [{ text := "explain the basics", blooms_level := BloomsLevel.understand }],
        sections := [
          Section.lecture ("Intro") 10 ["a"],
          Section.exercise ("Lab") 20 ("do") ("x") ("y") [],
          Section.checkpoint ("Quiz") 10 ["q"] ["a"] ["e"],
          Section.discussion ("Talk") 20 ["p"]] }] }

/-- C1 is false as stated: on `gappyWorkshop` every failing check has
severity suggestion (every check either passes or is a suggestion), yet
`validateWorkshop` returns `valid = false` — a failing suggestion blocks
overall validity. -/
theorem c1_counterexample :
    ((validateWorkshop gappyWorkshop).checks.all fun c =>
      c.passed || decide (c.severity = Severity.suggestion)) = true ∧
    (validateWorkshop gappyWorkshop).valid = false :=
  ⟨by decide, by decide⟩

/-- C1 (amended): overall validity is blocked by any failing check regardless
of severity — `validateWorkshop` returns `valid = true` exactly when every
check in its list passed, so a failing suggestion-severity check also makes
the document invalid. -/
theorem c1_overall_validity (w : Workshop) :
    (validateWorkshop w).valid = true ↔
      ∀ c ∈ (validateWorkshop w).checks, c.passed = true := by
  have h : (validateWorkshop w).valid = (validateWorkshop w).checks.all (fun c => c.passed) :=
    rfl
  rw [h]
  exact List.all_eq_true

/-- A workshop every check of which passes: sections 20 + 10 + 20 + 10 with
checkpoints keeping every gap at 20 minutes. -/
def soundWorkshop : Workshop :=
  { title := "W", topic := "t",
    audience := { level := AudienceLevel.beginner, stack := none, size := none },
    duration := 60, difficulty := AudienceLevel.beginner,
    prerequisites := [], context_sources := [],
    modules := [
      { title := "M1", duration := 60,
        learning_objectives := [{ text := "explain the basics", blooms_level := BloomsLevel.understand }],
        sections := [
          Section.exercise ("Lab") 20 ("do") ("x") ("y") [],
          Section.checkpoint ("Quiz") 10 ["q"] ["a"] ["e"],
          Section.discussion ("Talk") 20 ["p"],
          Section.checkpoint ("Quiz2") 10 ["q"] ["a"] ["e"]] }] }

/-- Witness for C1 (amended) on a workshop whose checks all pass. -/
theorem c1_witness : (validateWorkshop soundWorkshop).valid = true :=
  (c1_overall_validity soundWorkshop).mpr (by decide)

/-! ## Claim C9 -/

/-- A failing `blooms_alignment` finding. -/
def isBloomsFailure (c : ValidationCheck) : Bool :=
  c.rule == "blooms_alignment" && !c.passed

/-- Checks carrying a rule name other than `blooms_alignment` contribute no
blooms failures. -/
theorem countP_bloomsFailure_zero {l : List ValidationCheck}
    (h : ∀ c ∈ l, c.rule ≠ "blooms_alignment") :
    l.countP isBloomsFailure = 0 := by
  rw [List.countP_eq_zero]
  intro c hc
  simp [isBloomsFailure, h c hc]

/-- A single check that is not a blooms failure counts zero. -/
theorem countP_singleton_zero {x : ValidationCheck} (hx : isBloomsFailure x = false) :
    List.countP isBloomsFailure [x] = 0 := by
  rw [List.countP_cons, List.countP_nil, hx]
  simp

/-- Rule names of rule 1's checks. -/
theorem durationSumChecks_rule (w : Workshop) :
    ∀ c ∈ durationSumChecks w, c.rule = "duration_sum" := by
  intro c hc
  simp only [durationSumChecks, List.mem_map] at hc
  obtain ⟨m, _, rfl⟩ := hc
  rfl

/-- Rule names of rule 3's per-exercise failures. -/
theorem exerciseFailureChecks_rule (w : Workshop) :
    ∀ c ∈ exerciseFailureChecks w, c.rule = "exercise_completeness" := by
  intro c hc
  simp only [exerciseFailureChecks, List.mem_flatMap, List.mem_filterMap] at hc
  obtain ⟨m, _, s, _, hf⟩ := hc
  cases s with
  | exercise t d ins st so hi =>
    have hf2 : (if (decide ((jsTrim st.data).length > 0) &&
          decide ((jsTrim so.data).length > 0)) = true then none
        else some (⟨"exercise_completeness", false, Severity.error⟩ : ValidationCheck)) =
        some c := hf
    by_cases hcond :
        (decide ((jsTrim st.data).length > 0) && decide ((jsTrim so.data).length > 0)) = true
    · rw [if_pos hcond] at hf2
      cases hf2
    · rw [if_neg hcond] at hf2
      cases hf2
      rfl
  | lecture t d tp => cases hf
  | discussion t d p => cases hf
  | checkpoint t d q a e => cases hf

/-- Rule names of rule 3's checks. -/
theorem exerciseChecks_rule (w : Workshop) :
    ∀ c ∈ exerciseChecks w, c.rule = "exercise_completeness" := by
  intro c hc
  unfold exerciseChecks at hc
  rw [List.mem_append] at hc
  rcases hc with hc | hc
  · exact exerciseFailureChecks_rule w c hc
  · split at hc
    · rw [List.mem_singleton] at hc
      rw [hc]
    · split at hc
      · rw [List.mem_singleton] at hc
        rw [hc]
      · cases hc

/-- Rule names of rule 4's checks. -/
theorem checkpointSpacingChecks_rule (w : Workshop) :
    ∀ c ∈ checkpointSpacingChecks w, c.rule = "checkpoint_spacing" := by
  intro c hc
  simp only [checkpointSpacingChecks, List.mem_map] at hc
  obtain ⟨m, _, rfl⟩ := hc
  rfl

/-- Rule names of rule 8's failures. -/
theorem maxLectureFailures_rule (w : Workshop) :
    ∀ c ∈ maxLectureFailures w, c.rule = "max_lecture_duration" := by
  intro c hc
  simp only [maxLectureFailures, List.mem_flatMap, List.mem_filterMap] at hc
  obtain ⟨m, _, s, _, hf⟩ := hc
  cases s with
  | lecture t d tp =>
    have hf2 : (if d > 15 then
        some (⟨"max_lecture_duration", false, Severity.suggestion⟩ : ValidationCheck)
      else none) = some c := hf
    by_cases hcond : d > 15
    · rw [if_pos hcond] at hf2
      cases hf2
      rfl
    · rw [if_neg hcond] at hf2
      cases hf2
  | exercise t d ins st so hi => cases hf
  | discussion t d p => cases hf
  | checkpoint t d q a e => cases hf

/-- Rule names of rule 9's failures. -/
theorem minDurationFailures_rule (w : Workshop) :
    ∀ c ∈ minDurationFailures w, c.rule = "min_section_duration" := by
  intro c hc
  simp only [minDurationFailures, List.mem_flatMap, List.mem_filterMap] at hc
  obtain ⟨m, _, s, _, hf⟩ := hc
  by_cases hcond : s.duration < 5
  · rw [if_pos hcond] at hf
    cases hf
    rfl
  · rw [if_neg hcond] at hf
    cases hf

/-- Count of blooms failures in a conditional passing-summary extension. -/
theorem countP_ite_append_zero {C : Prop} [Decidable C] {l : List ValidationCheck}
    {x : ValidationCheck} (hx : isBloomsFailure x = false) :
    (if C then l else l ++ [x]).countP isBloomsFailure = l.countP isBloomsFailure := by
  split
  · rfl
  · rw [List.countP_append, List.countP_cons, List.countP_nil, hx]
    simp

/-- Count over a flat map as the sum of the per-element counts. -/
theorem countP_flatMap {α : Type} (p : ValidationCheck → Bool) (f : α → List ValidationCheck) :
    ∀ l : List α, (l.flatMap f).countP p = (l.map fun a => (f a).countP p).sum
  | [] => rfl
  | a :: l => by
    rw [List.flatMap_cons, List.countP_append, List.map_cons, List.sum_cons,
      countP_flatMap p f l]

/-- Blooms failures of one objective: one for a tag outside the expected set,
one for a failing verb condition. -/
theorem countP_objectiveBloomsChecks (expected : List BloomsLevel) (o : Objective) :
    (objectiveBloomsChecks expected o).countP isBloomsFailure =
      ((if expected.contains o.blooms_level then 0 else 1) +
        (if verbCondition o then 0 else 1) : Nat) := by
  unfold objectiveBloomsChecks
  rw [List.countP_append]
  congr 1 <;> split <;> decide

/-- Blooms failures of the whole rule-10 segment. -/
theorem countP_bloomsChecks (w : Workshop) :
    (bloomsChecks w).countP isBloomsFailure =
      (w.modules.map fun m => (m.learning_objectives.map fun o =>
        ((if (LEVEL_BLOOMS_MAP w.audience.level).contains o.blooms_level then 0 else 1) +
          (if verbCondition o then 0 else 1) : Nat)).sum).sum := by
  unfold bloomsChecks
  rw [List.countP_append, countP_flatMap]
  have hsummary : (if (w.modules.flatMap fun m =>
      m.learning_objectives.flatMap
        (objectiveBloomsChecks (LEVEL_BLOOMS_MAP w.audience.level))).length = 0 then
      [({ rule := "blooms_alignment", passed := true, severity := Severity.suggestion } : ValidationCheck)]
    else []).countP isBloomsFailure = 0 := by
    split <;> decide
  rw [hsummary, Nat.add_zero]
  simp only [countP_flatMap, countP_objectiveBloomsChecks]

/-- Rules 1–8 contribute no blooms failures. -/
theorem countP_checksThrough8 (w : Workshop) :
    (checksThrough8 w).countP isBloomsFailure = 0 := by
  unfold checksThrough8
  repeat rw [List.countP_append]
  have h1 := countP_bloomsFailure_zero (fun c hc => by rw [durationSumChecks_rule w c hc]; decide)
  have h2 : List.countP isBloomsFailure [totalDurationCheck w] = 0 :=
    @countP_singleton_zero (totalDurationCheck w) rfl
  have h3 := countP_bloomsFailure_zero (fun c hc => by rw [exerciseChecks_rule w c hc]; decide)
  have h4 := countP_bloomsFailure_zero (fun c hc => by rw [checkpointSpacingChecks_rule w c hc]; decide)
  have h5 : List.countP isBloomsFailure [practiceRatioCheck w] = 0 :=
    @countP_singleton_zero (practiceRatioCheck w) rfl
  have h6 : List.countP isBloomsFailure [lectureRatioCheck w] = 0 :=
    @countP_singleton_zero (lectureRatioCheck w) rfl
  have h7 : List.countP isBloomsFailure [checkpointRatioCheck w] = 0 :=
    @countP_singleton_zero (checkpointRatioCheck w) rfl
  have h8 := countP_bloomsFailure_zero (fun c hc => by rw [maxLectureFailures_rule w c hc]; decide)
  rw [h1, h2, h3, h4, h5, h6, h7, h8]

/-- Rule 8's summary contributes no blooms failures. -/
theorem countP_checksThrough8b (w : Workshop) :
    (checksThrough8b w).countP isBloomsFailure = 0 := by
  unfold checksThrough8b
  split
  · exact countP_checksThrough8 w
  · rw [List.countP_append, countP_checksThrough8 w]
    decide

/-- Rule 9's failures contribute no blooms failures. -/
theorem countP_checksThrough9 (w : Workshop) :
    (checksThrough9 w).countP isBloomsFailure = 0 := by
  unfold checksThrough9
  rw [List.countP_append, countP_checksThrough8b w,
    countP_bloomsFailure_zero (fun c hc => by rw [minDurationFailures_rule w c hc]; decide)]

/-- Rule 9's summary contributes no blooms failures. -/
theorem countP_checksThrough9b (w : Workshop) :
    (checksThrough9b w).countP isBloomsFailure = 0 := by
  unfold checksThrough9b
  split
  · exact countP_checksThrough9 w
  · rw [List.countP_append, countP_checksThrough9 w]
    decide

/-- The blooms failures of the full check list are exactly those of rule 10. -/
theorem countP_validateChecks (w : Workshop) :
    (validateChecks w).countP isBloomsFailure =
      (bloomsChecks w).countP isBloomsFailure := by
  unfold validateChecks checksThrough10
  split
  · have hctx : List.countP isBloomsFailure
        [({ rule := "context_sources", passed := true, severity := Severity.error } : ValidationCheck)] = 0 := by
      decide
    rw [List.countP_append, List.countP_append, countP_checksThrough9b w, hctx]
    omega
  · rw [List.countP_append, countP_checksThrough9b w, Nat.zero_add]

/-- A workshop whose single objective leads with the word `Applying`: not a
verb of the `apply` canonical list, yet a superstring of the listed verb
`apply`. -/
def gerundWorkshop : Workshop :=
  { title := "W", topic := "t",
    audience := { level := AudienceLevel.beginner, stack := none, size := none },
    duration := 10, difficulty := AudienceLevel.beginner,
    prerequisites := [], context_sources := [],
    modules := [
      { title := "M1", duration := 10,
        learning_objectives :=
          [{ text := "Applying the observer pattern", blooms_level := BloomsLevel.apply }],
        sections := [Section.exercise ("Lab") 10 ("do") ("x") ("y") []] }] }

/-- C9 is false as stated: the leading word `applying` is not a member of the
`apply` tag's canonical verb list, yet the Validation Engine produces no
failing `blooms_alignment` finding for `gerundWorkshop`, because the source
tests `firstWord.includes(verb)` — substring containment — rather than
membership. -/
theorem c9_counterexample :
    ((BLOOMS_VERBS BloomsLevel.apply).map String.data).contains
      (firstWordLower ("Applying the observer pattern")) = false ∧
    (validateWorkshop gerundWorkshop).checks.countP isBloomsFailure = 0 :=
  ⟨by decide, by decide⟩

/-- C9 (amended): the verb condition passes exactly when some canonical verb
of the statement's declared cognitive-level tag is a substring of the
statement's lower-cased leading word. For every workshop, the number of
failing `blooms_alignment` findings produced by `validateWorkshop` is the sum,
over all objectives, of one finding for a tag outside the audience tier's
expected set plus one finding exactly when no canonical verb of the tag is a
substring of the leading word; a leading word containing such a verb produces
none. -/
theorem c9_outcome_verb_condition (w : Workshop) :
    (validateWorkshop w).checks.countP isBloomsFailure =
      (w.modules.map fun m => (m.learning_objectives.map fun o =>
        ((if (LEVEL_BLOOMS_MAP w.audience.level).contains o.blooms_level then 0 else 1) +
          (if (BLOOMS_VERBS o.blooms_level).any (fun v =>
              jsIncludes (firstWordLower o.text) v.data) then 0 else 1) : Nat)).sum).sum := by
  have hchecks : (validateWorkshop w).checks = validateChecks w := rfl
  rw [hchecks, countP_validateChecks w, countP_bloomsChecks w]
  rfl

/-! ## Flat indexing (`mapSectionIndices`, `src/unnamed/part_008` lines 92–105) -/

/-- A (module, section) position pair. -/
structure SecPos where
  moduleIndex : Nat
  sectionIndex : Nat
deriving DecidableEq

/-- The double loop of `mapSectionIndices`, phrased over the per-module section
counts: each module contributes consecutive flat keys starting at `flat`. -/
def mapSectionIndicesAux : List Nat → Nat → Nat → List (Nat × SecPos)
  | [], _, _ => []
  | n :: rest, mIdx, flat =>
    ((List.range n).map fun s => (flat + s, ⟨mIdx, s⟩)) ++
      mapSectionIndicesAux rest (mIdx + 1) (flat + n)

/-- Per-module section counts. -/
def sectionSizes (w : Workshop) : List Nat := w.modules.map fun m => m.sections.length

/-- Map 1-based flat section numbers (sequential across all modules) to
(module, section) positions, as the ordered association list of the
insertion-ordered `Map` the source builds. -/
def mapSectionIndices (w : Workshop) : List (Nat × SecPos) :=
  mapSectionIndicesAux (sectionSizes w) 0 1

/-- Lookup in the association list (`Map.get`). -/
def lookupAssoc : List (Nat × SecPos) → Nat → Option SecPos
  | [], _ => none
  | (k, p) :: rest, j => if k = j then some p else lookupAssoc rest j

/-- Total number of sections across all modules. -/
def totalSections (w : Workshop) : Nat := (sectionSizes w).sum

/-- A position inside the workshop's shape. -/
def validPos (w : Workshop) (p : SecPos) : Prop :=
  ∃ n, (sectionSizes w)[p.moduleIndex]? = some n ∧ p.sectionIndex < n

/-- The flat index a valid position receives: one more than the number of
sections strictly before it in depth-first traversal order. -/
def flatOf (w : Workshop) (p : SecPos) : Nat :=
  1 + ((sectionSizes w).take p.moduleIndex).sum + p.sectionIndex

/-- The keys of the auxiliary map are the consecutive range starting at
`flat` of length the total count. -/
theorem mapSectionIndicesAux_keys :
    ∀ (sizes : List Nat) (mIdx flat : Nat),
      (mapSectionIndicesAux sizes mIdx flat).map Prod.fst = List.range' flat sizes.sum
  | [], _, _ => rfl
  | n :: rest, mIdx, flat => by
    rw [mapSectionIndicesAux, List.map_append, List.map_map,
      mapSectionIndicesAux_keys rest (mIdx + 1) (flat + n)]
    have h1 : (Prod.fst ∘ fun s => ((flat + s : Nat), (⟨mIdx, s⟩ : SecPos))) =
        fun s => flat + s := rfl
    rw [h1, ← List.range'_eq_map_range]
    have h2 := List.range'_append flat n rest.sum 1
    rw [Nat.one_mul] at h2
    rw [h2, List.sum_cons, Nat.add_comm rest.sum n]

/-- Membership characterization of the auxiliary map: the entry for a pair is
present exactly when the pair is inside the shape, with the flat key counting
all sections before it. -/
theorem mem_mapSectionIndicesAux :
    ∀ (sizes : List Nat) (mIdx flat k : Nat) (p : SecPos),
      ((k, p) ∈ mapSectionIndicesAux sizes mIdx flat ↔
        ∃ i n, sizes[i]? = some n ∧ p.sectionIndex < n ∧
          p.moduleIndex = mIdx + i ∧ k = flat + ((sizes.take i).sum) + p.sectionIndex)
  | [], mIdx, flat, k, p => by simp [mapSectionIndicesAux]
  | n :: rest, mIdx, flat, k, p => by
    rw [mapSectionIndicesAux, List.mem_append]
    constructor
    · intro h
      rcases h with h | h
      · rw [List.mem_map] at h
        obtain ⟨s, hs, heq⟩ := h
        rw [List.mem_range] at hs
        obtain ⟨hk, hp⟩ := Prod.mk.injEq _ _ _ _ ▸ heq
        refine ⟨0, n, by simp, ?_, ?_, ?_⟩
        · rw [← hp]
          exact hs
        · rw [← hp]
          simp
        · rw [← hp, ← hk]
          simp
      · rw [mem_mapSectionIndicesAux rest (mIdx + 1) (flat + n) k p] at h
        obtain ⟨i, hn, hget, hlt, hmod, hk⟩ := h
        refine ⟨i + 1, hn, by simpa using hget, hlt, by omega, ?_⟩
        rw [List.take_succ_cons, List.sum_cons]
        omega
    · rintro ⟨i, hn, hget, hlt, hmod, hk⟩
      cases i with
      | zero =>
        left
        rw [List.mem_map]
        rw [List.getElem?_cons_zero] at hget
        cases hget
        refine ⟨p.sectionIndex, List.mem_range.mpr hlt, ?_⟩
        have hp : p = ⟨mIdx, p.sectionIndex⟩ := by
          cases p
          simp at hmod ⊢
          omega
        rw [← hp]
        simp at hk
        rw [hk]
      | succ j =>
        right
        rw [mem_mapSectionIndicesAux rest (mIdx + 1) (flat + n) k p]
        rw [List.getElem?_cons_succ] at hget
        refine ⟨j, hn, hget, hlt, by omega, ?_⟩
        rw [List.take_succ_cons, List.sum_cons] at hk
        omega

/-- Lookup in an association list with distinct keys finds exactly the
member entries. -/
theorem lookupAssoc_eq_some_iff :
    ∀ (l : List (Nat × SecPos)), (l.map Prod.fst).Nodup →
      ∀ (k : Nat) (p : SecPos), (lookupAssoc l k = some p ↔ (k, p) ∈ l)
  | [], _, k, p => by simp [lookupAssoc]
  | (k0, p0) :: rest, hnd, k, p => by
    rw [List.map_cons, List.nodup_cons] at hnd
    obtain ⟨hk0, hrest⟩ := hnd
    rw [lookupAssoc]
    by_cases hk : k0 = k
    · subst hk
      rw [if_pos rfl]
      constructor
      · intro h
        cases h
        exact List.mem_cons_self _ _
      · intro h
        rcases List.mem_cons.mp h with heq | hmem
        · obtain ⟨-, hp⟩ := Prod.mk.injEq _ _ _ _ ▸ heq
          rw [hp]
        · exact absurd (List.mem_map_of_mem Prod.fst hmem) hk0
    · rw [if_neg hk, lookupAssoc_eq_some_iff rest hrest k p]
      constructor
      · exact fun h => List.mem_cons_of_mem _ h
      · intro h
        rcases List.mem_cons.mp h with heq | hmem
        · obtain ⟨hke, -⟩ := Prod.mk.injEq _ _ _ _ ▸ heq
          exact absurd hke.symm hk
        · exact hmem

/-- The keys of `mapSectionIndices` are `1, …, N` in order. -/
theorem mapSectionIndices_keys (w : Workshop) :
    (mapSectionIndices w).map Prod.fst = List.range' 1 (totalSections w) :=
  mapSectionIndicesAux_keys (sectionSizes w) 0 1

/-- Membership in `mapSectionIndices` is exactly validity of the position with
the flat key given by `flatOf`. -/
theorem mem_mapSectionIndices (w : Workshop) (k : Nat) (p : SecPos) :
    (k, p) ∈ mapSectionIndices w ↔ (validPos w p ∧ k = flatOf w p) := by
  rw [mapSectionIndices, mem_mapSectionIndicesAux]
  constructor
  · rintro ⟨i, n, hget, hlt, hmod, hk⟩
    have hi : i = p.moduleIndex := by omega
    subst hi
    exact ⟨⟨n, hget, hlt⟩, by rw [flatOf]; omega⟩
  · rintro ⟨⟨n, hget, hlt⟩, hk⟩
    exact ⟨p.moduleIndex, n, hget, hlt, by omega, by rw [hk, flatOf]⟩

/-- Lookup in `mapSectionIndices` agrees with membership. -/
theorem lookup_mapSectionIndices (w : Workshop) (k : Nat) (p : SecPos) :
    lookupAssoc (mapSectionIndices w) k = some p ↔ (k, p) ∈ mapSectionIndices w :=
  lookupAssoc_eq_some_iff (mapSectionIndices w)
    (by rw [mapSectionIndices_keys]; exact List.nodup_range' _ _) k p

/-- A two-module workshop with section counts `[3, 2]`. -/
def workshop32 : Workshop :=
  { title := "W", topic := "t",
    audience := { level := AudienceLevel.beginner, stack := none, size := none },
    duration := 50, difficulty := AudienceLevel.beginner,
    prerequisites := [], context_sources := [],
    modules := [
      { title := "M1", duration := 30, learning_objectives := [],
        sections := [Section.lecture ("A") 10 [], Section.lecture ("B") 10 [],
          Section.lecture ("C") 10 []] },
      { title := "M2", duration := 20, learning_objectives := [],
        sections := [Section.lecture ("D") 10 [], Section.lecture ("E") 10 []] }] }

/-- C4: `mapSectionIndices` assigns 1-based flat indices by depth-first
traversal, contiguous across module boundaries — its keys are exactly
`1, …, N` in order — and it is a bijection between that range and the valid
(module, section) positions: membership is characterized by `flatOf`, lookup
of a valid position's flat index round-trips, every lookup result is valid and
round-trips back, and `flatOf` is injective on valid positions. In particular,
for section counts `[3, 2]`, flat index 4 maps to (module 1, section 0) and
the round-trip holds for every index `1..5`. -/
theorem c4_flat_index_bijection :
    (∀ w : Workshop,
      ((mapSectionIndices w).map Prod.fst = List.range' 1 (totalSections w)) ∧
      (∀ k p, (k, p) ∈ mapSectionIndices w ↔ (validPos w p ∧ k = flatOf w p)) ∧
      (∀ p, validPos w p → lookupAssoc (mapSectionIndices w) (flatOf w p) = some p) ∧
      (∀ k p, lookupAssoc (mapSectionIndices w) k = some p →
        validPos w p ∧ flatOf w p = k) ∧
      (∀ p q, validPos w p → validPos w q → flatOf w p = flatOf w q → p = q)) ∧
    lookupAssoc (mapSectionIndices workshop32) 4 = some ⟨1, 0⟩ ∧
    (∀ k, 1 ≤ k → k ≤ 5 →
      ∃ p, lookupAssoc (mapSectionIndices workshop32) k = some p ∧
        flatOf workshop32 p = k) := by
  refine ⟨?_, by decide, ?_⟩
  · intro w
    refine ⟨mapSectionIndices_keys w, mem_mapSectionIndices w, ?_, ?_, ?_⟩
    · intro p hp
      rw [lookup_mapSectionIndices, mem_mapSectionIndices]
      exact ⟨hp, rfl⟩
    · intro k p h
      rw [lookup_mapSectionIndices, mem_mapSectionIndices] at h
      exact ⟨h.1, h.2.symm⟩
    · intro p q hp hq heq
      have h1 := (mem_mapSectionIndices w (flatOf w p) p).mpr ⟨hp, rfl⟩
      have h2 := (mem_mapSectionIndices w (flatOf w q) q).mpr ⟨hq, rfl⟩
      rw [← heq] at h2
      have l1 := (lookup_mapSectionIndices w (flatOf w p) p).mpr h1
      have l2 := (lookup_mapSectionIndices w (flatOf w p) q).mpr h2
      rw [l1] at l2
      cases l2
      rfl
  · intro k h1 h5
    interval_cases k
    · exact ⟨⟨0, 0⟩, by decide, by decide⟩
    · exact ⟨⟨0, 1⟩, by decide, by decide⟩
    · exact ⟨⟨0, 2⟩, by decide, by decide⟩
    · exact ⟨⟨1, 0⟩, by decide, by decide⟩
    · exact ⟨⟨1, 1⟩, by decide, by decide⟩

/-- Witness for C4 at `workshop32` and position (module 1, section 0). -/
theorem c4_witness :
    lookupAssoc (mapSectionIndices workshop32) (flatOf workshop32 ⟨1, 0⟩) = some ⟨1, 0⟩ :=
  (c4_flat_index_bijection.1 workshop32).2.2.1 ⟨1, 0⟩ ⟨2, by decide, by decide⟩

/-! ## Partial Update Splicer

The pure core of `regenerateWorkshop` (`src/unnamed/part_008`, lines 114–240):
the context-source union of step 4 and the splice loop of step 7, with the
count-mismatch warning. The I/O steps (loading, prompting, the generator
round-trip, saving) surround this core and are external collaborators. -/

/-- Read the section at a position; `none` out of bounds (the source's
optional chaining `modules[pos.moduleIndex]?.sections[pos.sectionIndex]`). -/
def getSection? (w : Workshop) (p : SecPos) : Option Section :=
  (w.modules[p.moduleIndex]?).bind fun m => m.sections[p.sectionIndex]?

/-- Write the section at a position (the assignment of line 226);
out-of-bounds writes change nothing. -/
def setSection (w : Workshop) (p : SecPos) (sec : Section) : Workshop :=
  let f : Module → Module := fun m => { m with sections := m.sections.set p.sectionIndex sec }
  { w with modules := w.modules.modify f p.moduleIndex }

/-- One iteration of the splice loop (lines 220–229): resolve the flat number
through the section map, skip numbers the map or the fragment does not
resolve, otherwise copy the fragment's section and count the update. -/
def spliceStep (sectionMap : List (Nat × SecPos)) (frag : Workshop)
    (st : Workshop × Nat) (sectionNum : Nat) : Workshop × Nat :=
  match lookupAssoc sectionMap sectionNum with
  | none => st
  | some pos =>
    match getSection? frag pos with
    | none => st
    | some updatedSection => (setSection st.1 pos updatedSection, st.2 + 1)

/-- The splice loop over the requested flat numbers, starting at zero
updates. -/
def spliceSections (sectionMap : List (Nat × SecPos)) (frag : Workshop)
    (w : Workshop) (targets : List Nat) : Workshop × Nat :=
  targets.foldl (spliceStep sectionMap frag) (w, 0)

/-- Insertion-ordered duplicate-free union: `new Set(old)`, adding each new
file, then `Array.from` (lines 165–169). -/
def dedupUnion (old fresh : List String) : List String :=
  (old ++ fresh).foldl (fun acc x => if acc.contains x then acc else acc ++ [x]) []

/-- Outcome of the pure regeneration core. -/
structure RegenOutcome where
  workshop : Workshop
  updatedCount : Nat
  requestedCount : Nat
  countMismatchWarning : Bool
deriving DecidableEq

/-- Step 4 (lines 156–176): when context files are supplied — the source
guard `contextFiles && contextFiles.length > 0` — merge them into
`context_sources` as a duplicate-free union; otherwise leave the workshop
untouched. -/
def mergeContextSources (w : Workshop) (contextFiles : Option (List String)) : Workshop :=
  match contextFiles with
  | some files =>
    if files.length > 0 then { w with context_sources := dedupUnion w.context_sources files }
    else w
  | none => w

/-- The pure core of `regenerateWorkshop`: step 2 builds the section map from
the loaded workshop; step 4 merges supplied context files; step 7 splices the
fragment's sections at the targeted positions, counting updates, and reports
a count mismatch as a non-fatal warning (`console.warn`, lines 230–232) while
still producing the updated workshop. -/
def regenerateWorkshop (w : Workshop) (targets : List Nat)
    (contextFiles : Option (List String)) (frag : Workshop) : RegenOutcome :=
  let sectionMap := mapSectionIndices w
  let w1 := mergeContextSources w contextFiles
  let result := spliceSections sectionMap frag w1 targets
  { workshop := result.1, updatedCount := result.2, requestedCount := targets.length,
    countMismatchWarning := decide (result.2 ≠ targets.length) }

/-- Everything about a module except its section contents: title, duration,
objectives and section count. -/
def moduleMeta (m : Module) : String × Nat × List Objective × Nat :=
  (m.title, m.duration, m.learning_objectives, m.sections.length)

/-- Everything about the root except the module list. -/
def rootMeta (w : Workshop) :
    String × String × Audience × Nat × AudienceLevel × List String × List String :=
  (w.title, w.topic, w.audience, w.duration, w.difficulty, w.prerequisites, w.context_sources)

/-- A section write leaves the root untouched. -/
theorem rootMeta_setSection (w : Workshop) (p : SecPos) (sec : Section) :
    rootMeta (setSection w p sec) = rootMeta w := rfl

/-- The modify underlying a section write. -/
theorem setSection_modules (w : Workshop) (p : SecPos) (sec : Section) :
    (setSection w p sec).modules = w.modules.modify
      (fun m => { m with sections := m.sections.set p.sectionIndex sec }) p.moduleIndex := rfl

/-- A section write preserves every module's metadata. -/
theorem moduleMeta_setSection (w : Workshop) (p : SecPos) (sec : Section) (i : Nat) :
    ((setSection w p sec).modules[i]?).map moduleMeta = (w.modules[i]?).map moduleMeta := by
  rw [setSection_modules, List.getElem?_modify]
  cases hm : w.modules[i]? with
  | none => rfl
  | some m =>
    by_cases hpi : p.moduleIndex = i <;> simp [hpi, moduleMeta, List.length_set]

/-- A section write preserves the shape. -/
theorem sectionSizes_setSection (w : Workshop) (p : SecPos) (sec : Section) :
    sectionSizes (setSection w p sec) = sectionSizes w := by
  unfold sectionSizes
  rw [setSection_modules]
  apply List.ext_getElem?
  intro i
  rw [List.getElem?_map, List.getElem?_map, List.getElem?_modify]
  cases hm : w.modules[i]? with
  | none => rfl
  | some m =>
    by_cases hpi : p.moduleIndex = i <;> simp [hpi, List.length_set]

/-- A section write does not disturb any other position. -/
theorem getSection?_setSection_ne (w : Workshop) (p q : SecPos) (sec : Section)
    (h : p ≠ q) : getSection? (setSection w p sec) q = getSection? w q := by
  unfold getSection?
  rw [setSection_modules, List.getElem?_modify]
  cases hm : w.modules[q.moduleIndex]? with
  | none => rfl
  | some m =>
    by_cases hpi : p.moduleIndex = q.moduleIndex
    · have hs : p.sectionIndex ≠ q.sectionIndex := by
        intro hc
        apply h
        obtain ⟨pm, ps⟩ := p
        obtain ⟨qm, qs⟩ := q
        simp only at hpi hc
        rw [hpi, hc]
      simp only [hpi, if_pos rfl, Option.map_some', Option.some_bind]
      exact List.getElem?_set_ne hs
    · simp [hpi]

/-- A section write at a valid position is read back. -/
theorem getSection?_setSection_self (w : Workshop) (p : SecPos) (sec : Section)
    (hv : validPos w p) : getSection? (setSection w p sec) p = some sec := by
  obtain ⟨n, hget, hlt⟩ := hv
  unfold sectionSizes at hget
  rw [List.getElem?_map] at hget
  cases hm : w.modules[p.moduleIndex]? with
  | none => rw [hm] at hget; cases hget
  | some m =>
    rw [hm] at hget
    simp only [Option.map_some', Option.some.injEq] at hget
    unfold getSection?
    rw [setSection_modules, List.getElem?_modify, hm]
    simp only [if_pos rfl, Option.map_some', Option.some_bind]
    exact List.getElem?_set_self (by omega)

/-- The splice loop leaves the root untouched. -/
theorem rootMeta_foldl_spliceStep (sectionMap : List (Nat × SecPos)) (frag : Workshop) :
    ∀ (targets : List Nat) (st : Workshop × Nat),
      rootMeta (targets.foldl (spliceStep sectionMap frag) st).1 = rootMeta st.1
  | [], _ => rfl
  | t :: ts, st => by
    rw [List.foldl_cons, rootMeta_foldl_spliceStep sectionMap frag ts _]
    unfold spliceStep
    cases hl : lookupAssoc sectionMap t with
    | none => simp only [hl]
    | some pos =>
      simp only [hl]
      cases hg : getSection? frag pos with
      | none => simp only [hg]
      | some sec =>
        simp only [hg]
        exact rootMeta_setSection st.1 pos sec

/-- The splice loop preserves every module's metadata. -/
theorem moduleMeta_foldl_spliceStep (sectionMap : List (Nat × SecPos)) (frag : Workshop)
    (i : Nat) :
    ∀ (targets : List Nat) (st : Workshop × Nat),
      (((targets.foldl (spliceStep sectionMap frag) st).1.modules[i]?).map moduleMeta) =
        ((st.1.modules[i]?).map moduleMeta)
  | [], _ => rfl
  | t :: ts, st => by
    rw [List.foldl_cons, moduleMeta_foldl_spliceStep sectionMap frag i ts _]
    unfold spliceStep
    cases hl : lookupAssoc sectionMap t with
    | none => simp only [hl]
    | some pos =>
      simp only [hl]
      cases hg : getSection? frag pos with
      | none => simp only [hg]
      | some sec =>
        simp only [hg]
        exact moduleMeta_setSection st.1 pos sec i

/-- The splice loop preserves the shape. -/
theorem sectionSizes_foldl_spliceStep (sectionMap : List (Nat × SecPos)) (frag : Workshop) :
    ∀ (targets : List Nat) (st : Workshop × Nat),
      sectionSizes (targets.foldl (spliceStep sectionMap frag) st).1 = sectionSizes st.1
  | [], _ => rfl
  | t :: ts, st => by
    rw [List.foldl_cons, sectionSizes_foldl_spliceStep sectionMap frag ts _]
    unfold spliceStep
    cases hl : lookupAssoc sectionMap t with
    | none => simp only [hl]
    | some pos =>
      simp only [hl]
      cases hg : getSection? frag pos with
      | none => simp only [hg]
      | some sec =>
        simp only [hg]
        exact sectionSizes_setSection st.1 pos sec

/-- The splice loop does not disturb positions that no target resolves to. -/
theorem getSection?_foldl_spliceStep_frame (sectionMap : List (Nat × SecPos))
    (frag : Workshop) (q : SecPos) :
    ∀ (targets : List Nat) (st : Workshop × Nat),
      (∀ t ∈ targets, lookupAssoc sectionMap t ≠ some q) →
      getSection? (targets.foldl (spliceStep sectionMap frag) st).1 q = getSection? st.1 q
  | [], _, _ => rfl
  | t :: ts, st, h => by
    rw [List.foldl_cons, getSection?_foldl_spliceStep_frame sectionMap frag q ts _
      (fun u hu => h u (List.mem_cons_of_mem _ hu))]
    unfold spliceStep
    cases hl : lookupAssoc sectionMap t with
    | none => simp only [hl]
    | some pos =>
      simp only [hl]
      cases hg : getSection? frag pos with
      | none => simp only [hg]
      | some sec =>
        simp only [hg]
        have hpq : pos ≠ q := by
          intro hc
          exact h t (List.mem_cons_self _ _) (by rw [hl, hc])
        exact getSection?_setSection_ne st.1 pos q sec hpq

/-- The update count after the loop: one per target that both the map and the
fragment resolve. -/
theorem count_foldl_spliceStep (sectionMap : List (Nat × SecPos)) (frag : Workshop) :
    ∀ (targets : List Nat) (st : Workshop × Nat),
      (targets.foldl (spliceStep sectionMap frag) st).2 =
        st.2 + targets.countP
          (fun t => ((lookupAssoc sectionMap t).bind (getSection? frag)).isSome)
  | [], st => by simp
  | t :: ts, st => by
    rw [List.foldl_cons, count_foldl_spliceStep sectionMap frag ts _, List.countP_cons]
    unfold spliceStep
    cases hl : lookupAssoc sectionMap t with
    | none => simp [hl]
    | some pos =>
      simp only [hl]
      cases hg : getSection? frag pos with
      | none => simp [hg]
      | some sec =>
        simp [hg]
        omega

/-- A targeted position the fragment populates holds the fragment's section
after the loop, provided it is valid for the original shape and the starting
state has that shape. -/
theorem getSection?_foldl_spliceStep_write (w frag : Workshop) (q : SecPos) (sec : Section)
    (hq : validPos w q) (hfrag : getSection? frag q = some sec) :
    ∀ (targets : List Nat) (st : Workshop × Nat),
      sectionSizes st.1 = sectionSizes w →
      (getSection? st.1 q = some sec ∨
        ∃ t ∈ targets, lookupAssoc (mapSectionIndices w) t = some q) →
      getSection? (targets.foldl (spliceStep (mapSectionIndices w) frag) st).1 q = some sec
  | [], st, _, h => by
    rcases h with h | ⟨t, ht, _⟩
    · exact h
    · cases ht
  | t :: ts, st, hsz, h => by
    rw [List.foldl_cons]
    apply getSection?_foldl_spliceStep_write w frag q sec hq hfrag ts _ ?_ ?_
    · rw [show (spliceStep (mapSectionIndices w) frag st t).1 =
          ([t].foldl (spliceStep (mapSectionIndices w) frag) st).1 from rfl]
      rw [sectionSizes_foldl_spliceStep]
      exact hsz
    · unfold spliceStep
      cases hl : lookupAssoc (mapSectionIndices w) t with
      | none =>
        simp only [hl]
        rcases h with h | ⟨u, hu, hlu⟩
        · exact Or.inl h
        · rcases List.mem_cons.mp hu with heq | hu2
          · subst heq
            rw [hl] at hlu
            cases hlu
          · exact Or.inr ⟨u, hu2, hlu⟩
      | some pos =>
        simp only [hl]
        cases hg : getSection? frag pos with
        | none =>
          simp only [hg]
          rcases h with h | ⟨u, hu, hlu⟩
          · exact Or.inl h
          · rcases List.mem_cons.mp hu with heq | hu2
            · subst heq
              rw [hl] at hlu
              cases hlu
              rw [hfrag] at hg
              cases hg
            · exact Or.inr ⟨u, hu2, hlu⟩
        | some s2 =>
          simp only [hg]
          by_cases hpq : pos = q
          · subst hpq
            rw [hfrag] at hg
            cases hg
            left
            apply getSection?_setSection_self
            unfold validPos
            rw [hsz]
            exact hq
          · rcases h with h | ⟨u, hu, hlu⟩
            · left
              rw [getSection?_setSection_ne st.1 pos q s2 hpq]
              exact h
            · rcases List.mem_cons.mp hu with heq | hu2
              · subst heq
                rw [hl] at hlu
                cases hlu
                exact absurd rfl hpq
              · exact Or.inr ⟨u, hu2, hlu⟩

/-- The context merge never touches the module tree. -/
theorem mergeContextSources_modules (w : Workshop) (contextFiles : Option (List String)) :
    (mergeContextSources w contextFiles).modules = w.modules := by
  cases contextFiles with
  | none => rfl
  | some files =>
    by_cases h : files.length > 0 <;> simp [mergeContextSources, h]

/-! ## Claims C3 and C8 -/

/-- A minimal workshop with a duplicated declared reference source. -/
def dupSourceWorkshop : Workshop :=
  { title := "W", topic := "t",
    audience := { level := AudienceLevel.beginner, stack := none, size := none },
    duration := 0, difficulty := AudienceLevel.beginner,
    prerequisites := [], context_sources := ["a", "a"], modules := [] }

/-- C3 is false as stated: a splice with no newly supplied sources leaves the
declared-source list exactly as it was — duplicates included — rather than
replacing it with the duplicate-free union of the old list with the (empty)
supplied sources. -/
theorem c3_counterexample :
    (regenerateWorkshop dupSourceWorkshop [] none dupSourceWorkshop).workshop.context_sources ≠
      dedupUnion dupSourceWorkshop.context_sources [] := by decide

/-- C3 (amended): splice isolation. Every position no target resolves to
reads back its prior section; every module's title, duration, objectives and
section count are unchanged; and the root metadata is unchanged, with the
single exception that `context_sources` becomes the duplicate-free union of
the old list with the newly supplied sources when such sources are supplied,
and is left exactly as it was when none are. -/
theorem c3_splice_isolation (w frag : Workshop) (targets : List Nat)
    (contextFiles : Option (List String)) :
    (∀ q : SecPos, (∀ t ∈ targets, lookupAssoc (mapSectionIndices w) t ≠ some q) →
      getSection? (regenerateWorkshop w targets contextFiles frag).workshop q =
        getSection? w q) ∧
    (∀ i : Nat,
      (((regenerateWorkshop w targets contextFiles frag).workshop.modules[i]?).map moduleMeta) =
        ((w.modules[i]?).map moduleMeta)) ∧
    rootMeta (regenerateWorkshop w targets contextFiles frag).workshop =
      (w.title, w.topic, w.audience, w.duration, w.difficulty, w.prerequisites,
        (match contextFiles with
          | some files =>
            if files.length > 0 then dedupUnion w.context_sources files
            else w.context_sources
          | none => w.context_sources)) := by
  have hw : (regenerateWorkshop w targets contextFiles frag).workshop =
      (targets.foldl (spliceStep (mapSectionIndices w) frag)
        (mergeContextSources w contextFiles, 0)).1 := rfl
  refine ⟨?_, ?_, ?_⟩
  · intro q hq
    rw [hw, getSection?_foldl_spliceStep_frame (mapSectionIndices w) frag q targets _ hq]
    show getSection? (mergeContextSources w contextFiles) q = getSection? w q
    unfold getSection?
    rw [mergeContextSources_modules]
  · intro i
    rw [hw, moduleMeta_foldl_spliceStep]
    show ((mergeContextSources w contextFiles).modules[i]?).map moduleMeta = _
    rw [mergeContextSources_modules]
  · rw [hw, rootMeta_foldl_spliceStep]
    show rootMeta (mergeContextSources w contextFiles) = _
    cases contextFiles with
    | none => rfl
    | some files =>
      by_cases h : files.length > 0 <;> simp [mergeContextSources, rootMeta, h]

/-- Witness for C3 (amended): splicing flat index 2 of `workshop32` leaves
position (module 1, section 0) untouched. -/
theorem c3_witness :
    getSection? (regenerateWorkshop workshop32 [2] none workshop32).workshop ⟨1, 0⟩ =
      getSection? workshop32 ⟨1, 0⟩ :=
  (c3_splice_isolation workshop32 workshop32 [2] none).1 ⟨1, 0⟩ (by decide)

/-- C8: partial-match handling. The splice is total — it always produces an
updated workshop — with the update count equal to the number of targets that
both the section map and the fragment resolve; the count mismatch is reported
exactly as the non-fatal warning flag; and every targeted position the
fragment does populate holds the fragment's section afterwards. -/
theorem c8_partial_match (w frag : Workshop) (targets : List Nat)
    (contextFiles : Option (List String)) :
    ((regenerateWorkshop w targets contextFiles frag).countMismatchWarning = true ↔
      (regenerateWorkshop w targets contextFiles frag).updatedCount ≠ targets.length) ∧
    ((regenerateWorkshop w targets contextFiles frag).updatedCount =
      targets.countP
        (fun t => ((lookupAssoc (mapSectionIndices w) t).bind (getSection? frag)).isSome)) ∧
    (∀ t ∈ targets, ∀ q sec, lookupAssoc (mapSectionIndices w) t = some q →
      getSection? frag q = some sec →
      getSection? (regenerateWorkshop w targets contextFiles frag).workshop q = some sec) := by
  have hcount : (regenerateWorkshop w targets contextFiles frag).updatedCount =
      (targets.foldl (spliceStep (mapSectionIndices w) frag)
        (mergeContextSources w contextFiles, 0)).2 := rfl
  refine ⟨?_, ?_, ?_⟩
  · exact decide_eq_true_iff
  · rw [hcount, count_foldl_spliceStep]
    omega
  · intro t ht q sec hlt hfrag
    have hmem := (lookup_mapSectionIndices w t q).mp hlt
    have hvalid := ((mem_mapSectionIndices w t q).mp hmem).1
    have hw : (regenerateWorkshop w targets contextFiles frag).workshop =
        (targets.foldl (spliceStep (mapSectionIndices w) frag)
          (mergeContextSources w contextFiles, 0)).1 := rfl
    rw [hw]
    apply getSection?_foldl_spliceStep_write w frag q sec hvalid hfrag targets _ ?_ ?_
    · show sectionSizes (mergeContextSources w contextFiles) = sectionSizes w
      unfold sectionSizes
      rw [mergeContextSources_modules]
    · exact Or.inr ⟨t, ht, hlt⟩

/-- A one-section fragment that can populate only flat index 1. -/
def fragWorkshop : Workshop :=
  { title := "F", topic := "t",
    audience := { level := AudienceLevel.beginner, stack := none, size := none },
    duration := 10, difficulty := AudienceLevel.beginner, prerequisites := [],
    context_sources := [],
    modules := [
      { title := "FM", duration := 10, learning_objectives := [],
        sections := [Section.discussion ("New") 10 ["p"]] }] }

/-- Witness for C8: splicing targets 1 and 4 of `workshop32` with a fragment
holding only one section updates one section, raises the mismatch warning,
and still produces the updated workshop with the fragment's section at
position (module 0, section 0). -/
theorem c8_witness :
    (regenerateWorkshop workshop32 [1, 4] none fragWorkshop).updatedCount = 1 ∧
    (regenerateWorkshop workshop32 [1, 4] none fragWorkshop).countMismatchWarning = true ∧
    getSection? (regenerateWorkshop workshop32 [1, 4] none fragWorkshop).workshop ⟨0, 0⟩ =
      some (Section.discussion ("New") 10 ["p"]) := by
  refine ⟨?_, ?_, ?_⟩
  · rw [(c8_partial_match workshop32 fragWorkshop [1, 4] none).2.1]
    decide
  · rw [(c8_partial_match workshop32 fragWorkshop [1, 4] none).1,
      (c8_partial_match workshop32 fragWorkshop [1, 4] none).2.1]
    decide
  · exact (c8_partial_match workshop32 fragWorkshop [1, 4] none).2.2 1 (by decide) ⟨0, 0⟩
      (Section.discussion ("New") 10 ["p"]) (by decide) (by decide)

/-! ## Stream Multiplexer (`streamResponse`, `src/src/client.ts` lines 107–184)

The source adapts three push subscriptions into a pull sequence through a
FIFO queue with a single-slot wake-up, under single-threaded cooperative
scheduling: handler callbacks run to completion synchronously in the turn
that delivers them, and the `session.idle` handler defers its end-of-stream
sentinel through `queueMicrotask`, which runs after every handler of the same
synchronous batch. The model below computes the queue contents produced by one
such batch and the chunks the consumer loop then yields, and represents the
`try`/`finally` control flow as an action trace indexed by how the generator
exits. -/

/-- Events the session source can emit: an incremental fragment
(`assistant.message_delta`), the final assembled message
(`assistant.message`), and the turn-completion signal (`session.idle`). -/
inductive SourceEvent
  | delta (content : String)
  | message (content : String)
  | idle
deriving DecidableEq

/-- Chunk kind: incremental or final. -/
inductive ChunkKind
  | delta
  | complete
deriving DecidableEq

/-- A chunk yielded by `streamResponse` (the `event` payload of the complete
chunk, an opaque SDK object, is not modelled). -/
structure StreamChunk where
  type : ChunkKind
  content : String
  accumulated : String
deriving DecidableEq

/-- Handler state during one synchronous batch: the pushed delta fragments
(`chunks`, line 112), the stream queue in enqueue order, and the number of
end-of-stream sentinels deferred by `queueMicrotask` (line 156). -/
structure StreamState where
  chunks : List String
  queue : List (Option StreamChunk)
  deferredNulls : Nat
deriving DecidableEq

/-- One event handler firing (lines 135–157): a delta pushes its fragment and
enqueues a delta chunk with the joined accumulation; the final message
enqueues a complete chunk; idle defers the `null` sentinel one scheduling
tick, so content chunks already in flight are delivered first. -/
def handleEvent (st : StreamState) : SourceEvent → StreamState
  | SourceEvent.delta c =>
    let chunks := st.chunks ++ [c]
    let chunk : StreamChunk := ⟨ChunkKind.delta, c, String.join chunks⟩
    { st with chunks := chunks, queue := st.queue ++ [some chunk] }
  | SourceEvent.message c =>
    { st with queue := st.queue ++ [some ⟨ChunkKind.complete, c, c⟩] }
  | SourceEvent.idle => { st with deferredNulls := st.deferredNulls + 1 }

/-- Deliver one synchronous batch of events: the handlers run in event order
within the turn, and the deferred sentinels run as microtasks after the whole
batch. -/
def runBatch (events : List SourceEvent) : List (Option StreamChunk) :=
  let st := events.foldl handleEvent ⟨[], [], 0⟩
  st.queue ++ List.replicate st.deferredNulls none

/-- The consumer loop (lines 166–177): shift chunks in FIFO order, ending the
sequence at the first `null` sentinel. -/
def consumeQueue : List (Option StreamChunk) → List StreamChunk
  | [] => []
  | none :: _ => []
  | some c :: rest => c :: consumeQueue rest

/-- The chunks `streamResponse` yields for a source that emits the given
events in one synchronous batch. -/
def streamResponseYields (events : List SourceEvent) : List StreamChunk :=
  consumeQueue (runBatch events)

/-- Actions observable from one `streamResponse` call: registering and
unregistering the three subscriptions, and yielding chunks. -/
inductive StreamAction
  | subDelta
  | subMessage
  | subIdle
  | yieldChunk (c : StreamChunk)
  | unsubDelta
  | unsubMessage
  | unsubIdle
deriving DecidableEq

/-- How the generating routine exits: normal exhaustion, the consumer
stopping early after some number of chunks, or an error propagating out of
the body (for example from `session.send`, which yields no chunks). -/
inductive ExitMode
  | normal
  | earlyStop (k : Nat)
  | propagatedError
deriving DecidableEq

/-- The action trace of one `streamResponse` call: the three subscriptions
are registered first (lines 135–157); the body yields according to the exit
mode; the `finally` block (lines 178–183) unregisters all three subscriptions
on every exit path. -/
def streamResponseTrace (events : List SourceEvent) : ExitMode → List StreamAction
  | ExitMode.normal =>
    [StreamAction.subDelta, StreamAction.subMessage, StreamAction.subIdle] ++
      (streamResponseYields events).map StreamAction.yieldChunk ++
      [StreamAction.unsubDelta, StreamAction.unsubMessage, StreamAction.unsubIdle]
  | ExitMode.earlyStop k =>
    [StreamAction.subDelta, StreamAction.subMessage, StreamAction.subIdle] ++
      ((streamResponseYields events).take k).map StreamAction.yieldChunk ++
      [StreamAction.unsubDelta, StreamAction.unsubMessage, StreamAction.unsubIdle]
  | ExitMode.propagatedError =>
    [StreamAction.subDelta, StreamAction.subMessage, StreamAction.subIdle] ++
      [StreamAction.unsubDelta, StreamAction.unsubMessage, StreamAction.unsubIdle]

/-- The specification's scenario: two fragments, then the final message, then
the turn-idle signal, all in one synchronous batch. -/
def scenarioEvents : List SourceEvent :=
  [SourceEvent.delta ("Hello"), SourceEvent.delta (" world"),
    SourceEvent.message ("Hello world"), SourceEvent.idle]

/-- A mapped yield list contains no unsubscribe action. -/
theorem count_yieldChunk_map_zero (a : StreamAction)
    (h : ∀ c, a ≠ StreamAction.yieldChunk c) (cs : List StreamChunk) :
    (cs.map StreamAction.yieldChunk).count a = 0 := by
  rw [List.count_eq_zero]
  intro hmem
  rw [List.mem_map] at hmem
  obtain ⟨c, _, hc⟩ := hmem
  exact h c hc.symm

/-- C2: stream ordering and cleanup. For the scenario of two fragment events,
one final-message event and the turn-idle signal, `streamResponse` yields
exactly three chunks in emission order — the two deltas with their running
accumulations, then the complete chunk — before the sequence ends; and on
every exit path (normal exhaustion, early consumer stop after any number of
chunks, or a propagated error) the trace registers and then unregisters each
of the three event subscriptions exactly once, every action between
subscription and cleanup being a yield. -/
theorem c2_stream_ordering_cleanup :
    streamResponseYields scenarioEvents =
      [⟨ChunkKind.delta, "Hello", "Hello"⟩, ⟨ChunkKind.delta, " world", "Hello world"⟩,
        ⟨ChunkKind.complete, "Hello world", "Hello world"⟩] ∧
    (∀ mode, ∃ ys, streamResponseTrace scenarioEvents mode =
      [StreamAction.subDelta, StreamAction.subMessage, StreamAction.subIdle] ++ ys ++
        [StreamAction.unsubDelta, StreamAction.unsubMessage, StreamAction.unsubIdle] ∧
      (∀ a ∈ ys, ∃ c, a = StreamAction.yieldChunk c) ∧
      (streamResponseTrace scenarioEvents mode).count StreamAction.unsubDelta = 1 ∧
      (streamResponseTrace scenarioEvents mode).count StreamAction.unsubMessage = 1 ∧
      (streamResponseTrace scenarioEvents mode).count StreamAction.unsubIdle = 1) := by
  constructor
  · decide
  · intro mode
    cases mode with
    | normal =>
      refine ⟨(streamResponseYields scenarioEvents).map StreamAction.yieldChunk, rfl,
        ?_, by decide, by decide, by decide⟩
      intro a ha
      rw [List.mem_map] at ha
      obtain ⟨c, _, hc⟩ := ha
      exact ⟨c, hc.symm⟩
    | earlyStop k =>
      refine ⟨((streamResponseYields scenarioEvents).take k).map StreamAction.yieldChunk,
        rfl, ?_, ?_, ?_, ?_⟩
      · intro a ha
        rw [List.mem_map] at ha
        obtain ⟨c, _, hc⟩ := ha
        exact ⟨c, hc.symm⟩
      all_goals
        simp only [streamResponseTrace]
        rw [List.count_append, List.count_append,
          count_yieldChunk_map_zero _ (fun c hc => by cases hc) _]
        decide
    | propagatedError =>
      exact ⟨[], rfl, fun a ha => absurd ha (List.not_mem_nil a), by decide, by decide,
        by decide⟩

end WorkshopFactory
